import Mathlib

/-!
# Verification of the Sentinel process supervisor core

Shallow embedding of the Rust sources of the GLINCKER/sentinel repository:

* `src-tauri/src/core/log_buffer.rs`      — bounded FIFO of log lines
* `src-tauri/src/core/process_manager.rs` — supervisor (start/stop/restart/health)
* `src-tauri/src/core/config.rs`          — configuration validation (cycles, deps)
* `src-tauri/src/core/pty_process_manager.rs` — PTY supervisor
* `cli/src/commands/start.rs`             — CLI batch start

Rust `HashMap`s are modelled as association lists with replace-on-insert,
`u32`/`u64` as `Nat` with explicit wrap/saturation where overflow matters,
OS effects (spawn success, observation of a child exit) as explicit
oracles, and timestamps as `Nat` arguments standing for `Utc::now()` /
`Instant::now()`.  The floating-point `cpu_usage` field and the
`memory_usage` field of `ProcessInfo` are omitted: `process_manager.rs`
only ever writes the constant 0 to them and no claim mentions them.

The file is organised as definitions first, then theorems.
-/

namespace Sentinel

/-! ## Association lists (model of `HashMap<String, V>`) -/

/-- Lookup in an association list: model of `HashMap::get`. -/
def alLookup {α : Type} : List (String × α) → String → Option α
  | [], _ => none
  | p :: t, k => if p.1 = k then some p.2 else alLookup t k

/-- Insert with replacement: model of `HashMap::insert` (replaces the
entry for the key when present, otherwise adds one). -/
def alInsert {α : Type} : List (String × α) → String → α → List (String × α)
  | [], k, v => [(k, v)]
  | p :: t, k, v => if p.1 = k then (k, v) :: t else p :: alInsert t k v

/-- Update in place when present, no-op when absent: model of
`HashMap::get_mut` followed by field mutation. -/
def alUpdate {α : Type} : List (String × α) → String → (α → α) → List (String × α)
  | [], _, _ => []
  | p :: t, k, f => if p.1 = k then (k, f p.2) :: t else p :: alUpdate t k f

/-- Removal: model of `HashMap::remove`. -/
def alRemove {α : Type} : List (String × α) → String → List (String × α)
  | [], _ => []
  | p :: t, k => if p.1 = k then t else p :: alRemove t k

/-! ## Log buffer (`log_buffer.rs`)

`VecDeque<LogLine>` is modelled as a `List` whose head is the oldest
entry: `push_back` appends, `pop_front` drops the head (`List.tail`,
which like `VecDeque::pop_front` is a no-op on the empty buffer). -/

/-- `LogStream` — stream tag of a captured line. -/
inductive LogStream where
  | Stdout
  | Stderr
deriving DecidableEq, Repr

/-- `LogLine` — timestamp (modelled as `Nat`), stream tag, text. -/
structure LogLine where
  timestamp : Nat
  stream : LogStream
  line : String
deriving DecidableEq, Repr

/-- `DEFAULT_MAX_LINES` — 10,000 lines. -/
def DEFAULT_MAX_LINES : Nat := 10000

/-- `LogBuffer` — bounded FIFO of log lines. -/
structure LogBuffer where
  lines : List LogLine
  max_lines : Nat
deriving DecidableEq, Repr

namespace LogBuffer

/-- `LogBuffer::with_capacity`. -/
def with_capacity (max_lines : Nat) : LogBuffer :=
  { lines := [], max_lines := max_lines }

/-- `LogBuffer::new` — default capacity 10,000. -/
def new : LogBuffer := with_capacity DEFAULT_MAX_LINES

/-- `LogBuffer::push` — when `len() >= max_lines`, first `pop_front`
(no-op when empty), then `push_back`. -/
def push (b : LogBuffer) (l : LogLine) : LogBuffer :=
  let lines := if b.lines.length ≥ b.max_lines then b.lines.tail else b.lines
  { b with lines := lines ++ [l] }

/-- `LogBuffer::get_all`. -/
def get_all (b : LogBuffer) : List LogLine := b.lines

/-- `LogBuffer::get_last_n`. -/
def get_last_n (b : LogBuffer) (n : Nat) : List LogLine :=
  (b.lines.reverse.take n).reverse

/-- `LogBuffer::search` — case-insensitive substring filter
(`line.to_lowercase().contains(&query_lower)`). -/
def search (b : LogBuffer) (query : String) : List LogLine :=
  b.lines.filter (fun l =>
    decide (List.IsInfix query.toLower.toList l.line.toLower.toList))

/-- `LogBuffer::filter_by_stream`. -/
def filter_by_stream (b : LogBuffer) (s : LogStream) : List LogLine :=
  b.lines.filter (fun l => l.stream = s)

/-- `LogBuffer::len`. -/
def len (b : LogBuffer) : Nat := b.lines.length

/-- `LogBuffer::clear`. -/
def clear (b : LogBuffer) : LogBuffer := { b with lines := [] }

/-- `LogBuffer::capacity`. -/
def capacity (b : LogBuffer) : Nat := b.max_lines

/-- Applying a sequence of pushes. -/
def pushAll (b : LogBuffer) (ls : List LogLine) : LogBuffer :=
  ls.foldl push b

end LogBuffer

/-- C3 counterexample input: one pushed line. -/
def c3Line : LogLine := { timestamp := 0, stream := LogStream.Stdout, line := "x" }

/-! ## Data model (`models/process.rs`, `models/config.rs`, `error.rs`) -/

/-- `ProcessState` — tagged state variant. -/
inductive ProcessState where
  | Stopped
  | Starting
  | Running
  | Stopping
  | Crashed (exit_code : Int)
  | Failed (reason : String)
deriving DecidableEq, Repr

/-- `HealthCheck` block of a process configuration. -/
structure HealthCheck where
  command : String
  args : List String
  interval_ms : Nat
  timeout_ms : Nat
  retries : Nat
deriving DecidableEq, Repr

/-- `ProcessConfig` (`models/config.rs`).  `restart_limit` is `u32`,
`restart_delay` is `u64`; both are modelled as `Nat`. -/
structure ProcessConfig where
  name : String
  command : String
  args : List String
  cwd : Option String
  env : List (String × String)
  auto_restart : Bool
  restart_limit : Nat
  restart_delay : Nat
  depends_on : List String
  health_check : Option HealthCheck
deriving DecidableEq, Repr

/-- `ProcessInfo` (`models/process.rs`); `cpu_usage`/`memory_usage` omitted. -/
structure ProcessInfo where
  name : String
  state : ProcessState
  pid : Option Nat
  command : String
  cwd : Option String
  restart_count : Nat
  started_at : Option Nat
  stopped_at : Option Nat
deriving DecidableEq, Repr

/-- `ProcessInfo::is_running` — `matches!(self.state, ProcessState::Running)`. -/
def ProcessInfo.is_running (i : ProcessInfo) : Bool :=
  match i.state with
  | ProcessState.Running => true
  | _ => false

/-- `SentinelError` (`error.rs`), restricted to the variants the
supervisor and validator produce; `io::Error` payloads are dropped. -/
inductive SentinelError where
  | ProcessNotFound (name : String)
  | SpawnFailed (name : String)
  | ProcessAlreadyRunning (name : String) (pid : Nat)
  | StopTimeout (name : String) (timeout_secs : Nat)
  | InvalidConfig (reason : String)
  | DependencyCycle (deps : List String)
  | UnknownDependency (process : String) (dependency : String)
  | RestartLimitExceeded (name : String) (limit : Nat)
  | Other (msg : String)
deriving DecidableEq, Repr

/-! ## Process manager (`process_manager.rs`) -/

/-- The outcome the OS gives `cmd.spawn()`: success yields a child whose
`id()` is an `Option<u32>` (`child.id().unwrap_or(0)` is applied by the
supervisor), failure yields an `io::Error`. -/
inductive SpawnOutcome where
  | ok (id : Option Nat)
  | fail
deriving DecidableEq, Repr

/-- Model of the live `tokio::process::Child` held by a handle: only its
optional pid is observable to the supervisor. -/
structure ChildProc where
  id : Option Nat
deriving DecidableEq, Repr

/-- `ProcessHandle` (internal to `ProcessManager`). -/
structure ProcessHandle where
  info : ProcessInfo
  child : Option ChildProc
  config : ProcessConfig
  log_buffer : LogBuffer
  restart_count : Nat
  last_restart : Option Nat
deriving DecidableEq, Repr

/-- `ProcessManager` — map of process name to handle. -/
structure ProcessManager where
  processes : List (String × ProcessHandle)
deriving DecidableEq, Repr

/-- `ProcessManager::new`. -/
def ProcessManager.new : ProcessManager := ⟨[]⟩

/-- Accumulating splitter over the character list (`acc` holds the
current word reversed). -/
def splitWsAux : List Char → List Char → List String
  | [], acc => if acc.isEmpty then [] else [String.mk acc.reverse]
  | ch :: cs, acc =>
      if ch.isWhitespace then
        if acc.isEmpty then splitWsAux cs []
        else String.mk acc.reverse :: splitWsAux cs []
      else splitWsAux cs (ch :: acc)

/-- Rust `str::split_whitespace`: split on whitespace, dropping empty
parts. -/
def splitWhitespace (s : String) : List String :=
  splitWsAux s.toList []

/-- The `ProcessInfo` built by a successful `start` (lines 206–217). -/
def startInfo (config : ProcessConfig) (id : Option Nat) (t : Nat) : ProcessInfo :=
  { name := config.name
    state := ProcessState.Running
    pid := some (id.getD 0)
    command := config.command
    cwd := config.cwd
    restart_count := 0
    started_at := some t
    stopped_at := none }

/-- The `ProcessHandle` stored by a successful `start` (lines 220–227). -/
def startHandle (config : ProcessConfig) (id : Option Nat) (t : Nat) : ProcessHandle :=
  { info := startInfo config id t
    child := some { id := id }
    config := config
    log_buffer := LogBuffer.new
    restart_count := 0
    last_restart := none }

/-- The spawn path of `ProcessManager::start` (lines 143–233), reached
once the already-running check has passed: command resolution, spawn
(outcome given by the OS oracle `sp`), then handle installation. -/
def ProcessManager.startSpawn (m : ProcessManager) (config : ProcessConfig)
    (sp : SpawnOutcome) (t : Nat) :
    Except SentinelError ProcessInfo × ProcessManager :=
  if config.args.isEmpty ∧ (splitWhitespace config.command).isEmpty then
    (Except.error (SentinelError.InvalidConfig
      ("Empty command for process " ++ config.name)), m)
  else
    match sp with
    | SpawnOutcome.fail => (Except.error (SentinelError.SpawnFailed config.name), m)
    | SpawnOutcome.ok id =>
        (Except.ok (startInfo config id t),
         ⟨alInsert m.processes config.name (startHandle config id t)⟩)

/-- `ProcessManager::start`.  `t` stands for `Utc::now()`. -/
def ProcessManager.start (m : ProcessManager) (config : ProcessConfig)
    (sp : SpawnOutcome) (t : Nat) :
    Except SentinelError ProcessInfo × ProcessManager :=
  match alLookup m.processes config.name with
  | some h =>
      if h.info.is_running then
        (Except.error (SentinelError.ProcessAlreadyRunning config.name (h.info.pid.getD 0)), m)
      else
        m.startSpawn config sp t
  | none => m.startSpawn config sp t

/-- The handle state written by a completed `stop` (lines 307–309): the
transient `Stopping` assignment is internal to the call and collapsed. -/
def stopHandle (h : ProcessHandle) (t : Nat) : ProcessHandle :=
  { h with child := none,
           info := { h.info with state := ProcessState.Stopped, pid := none,
                                 stopped_at := some t } }

/-- `ProcessManager::stop`.  Killing and waiting have no further effect
on supervisor state, so the 10 s window is not modelled. -/
def ProcessManager.stop (m : ProcessManager) (name : String) (t : Nat) :
    Except SentinelError Unit × ProcessManager :=
  match alLookup m.processes name with
  | none => (Except.error (SentinelError.ProcessNotFound name), m)
  | some h =>
      if h.info.is_running then
        (Except.ok (), ⟨alUpdate m.processes name (fun _ => stopHandle h t)⟩)
      else
        (Except.ok (), m)

/-- `ProcessManager::stop_gracefully` — identical supervisor-state
result to `stop`; only the kill strategy (5 s window then SIGKILL)
differs, which is not supervisor-state observable. -/
def ProcessManager.stop_gracefully (m : ProcessManager) (name : String) (t : Nat) :
    Except SentinelError Unit × ProcessManager :=
  match alLookup m.processes name with
  | none => (Except.error (SentinelError.ProcessNotFound name), m)
  | some h =>
      if h.info.is_running then
        (Except.ok (), ⟨alUpdate m.processes name (fun _ => stopHandle h t)⟩)
      else
        (Except.ok (), m)

/-- `ProcessManager::restart` — reads the config, stops (errors
ignored), sleeps `restart_delay`, starts again. -/
def ProcessManager.restart (m : ProcessManager) (name : String)
    (sp : SpawnOutcome) (t : Nat) :
    Except SentinelError ProcessInfo × ProcessManager :=
  match alLookup m.processes name with
  | none => (Except.error (SentinelError.ProcessNotFound name), m)
  | some h =>
      let m1 := (m.stop name t).2
      m1.start h.config sp t

/-- `ProcessManager::get`. -/
def ProcessManager.get (m : ProcessManager) (name : String) : Option ProcessInfo :=
  (alLookup m.processes name).map (·.info)

/-- `ProcessManager::list`. -/
def ProcessManager.list (m : ProcessManager) : List ProcessInfo :=
  m.processes.map (·.2.info)

/-- `ProcessManager::is_running`. -/
def ProcessManager.is_running (m : ProcessManager) (name : String) : Bool :=
  ((alLookup m.processes name).map (fun h => h.info.is_running)).getD false

/-- `ProcessManager::remove`. -/
def ProcessManager.remove (m : ProcessManager) (name : String) :
    Except SentinelError Unit × ProcessManager :=
  if m.is_running name then
    (Except.error (SentinelError.Other "Cannot remove running process. Stop it first."), m)
  else
    (Except.ok (), ⟨alRemove m.processes name⟩)

/-- Loop body of `stop_all`: stop one name, ignoring errors. -/
def stopFoldStep (t : Nat) (acc : ProcessManager) (n : String) : ProcessManager :=
  (acc.stop n t).2

/-- `ProcessManager::stop_all` — stops every name, errors logged only. -/
def ProcessManager.stop_all (m : ProcessManager) (t : Nat) : ProcessManager :=
  (m.processes.map (·.1)).foldl (stopFoldStep t) m

/-! ### Health check (`check_health`, lines 485–580) -/

/-- `2^64`, the modulus of `u64` arithmetic. -/
def U64_LIMIT : Nat := 2 ^ 64

/-- `2_u64.pow(n)` under release-profile (wrapping) semantics; the
source leaves overflow semantics implicit. -/
def powU64Wrap (n : Nat) : Nat := 2 ^ n % U64_LIMIT

/-- `u64::saturating_mul` for operands already below `2^64`. -/
def saturatingMulU64 (a b : Nat) : Nat := min (a * b) (U64_LIMIT - 1)

/-- Lines 542–544: `delay_ms = base_delay.saturating_mul(2_u64.pow(restart_count))`. -/
def backoffDelayMs (restart_delay restart_count : Nat) : Nat :=
  saturatingMulU64 restart_delay (powU64Wrap restart_count)

/-- The policy test of lines 509–523: auto_restart and
(`restart_limit == 0` or `restart_count < restart_limit`). -/
def restartPolicy (h : ProcessHandle) : Bool :=
  h.config.auto_restart &&
    (decide (h.config.restart_limit = 0) || decide (h.restart_count < h.config.restart_limit))

/-- OS oracle for one `check_health` sweep: `exitObserved n` is the
result of `child.try_wait()` for process `n` (`some code` when the
child was reaped, already `unwrap_or(-1)`-normalised; `none` when still
running or the wait errored); `respawn n` is the spawn outcome of the
restart attempt. -/
structure HealthOracle where
  exitObserved : String → Option Int
  respawn : String → SpawnOutcome

/-- The crash-marked handle (lines 501–506). -/
def crashHandle (h : ProcessHandle) (exit_code : Int) (t : Nat) : ProcessHandle :=
  { h with child := none,
           info := { h.info with state := ProcessState.Crashed exit_code, pid := none,
                                 stopped_at := some t } }

/-- The restart-count fix-up applied after a successful respawn
(lines 565–569). -/
def respawnFixup (rc t : Nat) (h : ProcessHandle) : ProcessHandle :=
  { h with restart_count := rc + 1, last_restart := some t,
           info := { h.info with restart_count := rc + 1 } }

/-- Result of the loop body of `check_health` for one name. -/
structure CheckStepResult where
  m : ProcessManager
  restarted : Bool
  slept : Option Nat
deriving Repr

/-- One iteration of the `check_health` loop (lines 489–577) for the
given name. `slept` records the backoff delay passed to `sleep`. -/
def ProcessManager.checkHealthStep (m : ProcessManager) (name : String)
    (orc : HealthOracle) (t : Nat) : CheckStepResult :=
  match alLookup m.processes name with
  | none => { m := m, restarted := false, slept := none }
  | some h =>
    match h.child with
    | none => { m := m, restarted := false, slept := none }
    | some _ =>
      match orc.exitObserved name with
      | none => { m := m, restarted := false, slept := none }
      | some exit_code =>
        let h1 := crashHandle h exit_code t
        let m1 : ProcessManager := ⟨alUpdate m.processes name (fun _ => h1)⟩
        if restartPolicy h1 then
          let delay := backoffDelayMs h1.config.restart_delay h1.restart_count
          let rc := h1.restart_count
          match m1.start h1.config (orc.respawn name) t with
          | (Except.ok _, m2) =>
              ({ m := ⟨alUpdate m2.processes name (respawnFixup rc t)⟩,
                 restarted := true, slept := some delay } : CheckStepResult)
          | (Except.error _, m2) =>
              ({ m := m2, restarted := false, slept := some delay } : CheckStepResult)
        else
          { m := m1, restarted := false, slept := none }

/-- Result of a whole `check_health` sweep. -/
structure CheckResult where
  m : ProcessManager
  restarted : List String
  slept : List (String × Nat)
deriving Repr

/-- Loop body of `check_health`, accumulating the restarted names (and,
for observability, the backoff delays slept). -/
def healthFoldStep (orc : HealthOracle) (t : Nat) (acc : CheckResult) (name : String) :
    CheckResult :=
  let s := acc.m.checkHealthStep name orc t
  { m := s.m,
    restarted := if s.restarted then acc.restarted ++ [name] else acc.restarted,
    slept := match s.slept with
             | some d => acc.slept ++ [(name, d)]
             | none => acc.slept }

/-- `ProcessManager::check_health` — iterates the loop body over the
snapshot of keys. -/
def ProcessManager.check_health (m : ProcessManager) (orc : HealthOracle) (t : Nat) :
    CheckResult :=
  (m.processes.map (·.1)).foldl (healthFoldStep orc t)
    { m := m, restarted := [], slept := [] }

/-! ### Reachable supervisor states -/

/-- One façade operation on the supervisor, with its OS oracle data. -/
inductive SOp where
  | start (config : ProcessConfig) (sp : SpawnOutcome) (t : Nat)
  | stop (name : String) (t : Nat)
  | stopGracefully (name : String) (t : Nat)
  | restart (name : String) (sp : SpawnOutcome) (t : Nat)
  | checkHealth (orc : HealthOracle) (t : Nat)
  | remove (name : String)
  | stopAll (t : Nat)

/-- Apply one operation, discarding its return value. -/
def SOp.apply (m : ProcessManager) : SOp → ProcessManager
  | SOp.start c sp t => (m.start c sp t).2
  | SOp.stop n t => (m.stop n t).2
  | SOp.stopGracefully n t => (m.stop_gracefully n t).2
  | SOp.restart n sp t => (m.restart n sp t).2
  | SOp.checkHealth orc t => (m.check_health orc t).m
  | SOp.remove n => (m.remove n).2
  | SOp.stopAll t => m.stop_all t

/-- The supervisor state after a sequence of operations from `new`. -/
def runOps (ops : List SOp) : ProcessManager :=
  ops.foldl SOp.apply ProcessManager.new

/-- The Running-iff-pid invariant of §8.1, as a predicate on managers. -/
def RunIffPid (m : ProcessManager) : Prop :=
  ∀ p ∈ m.processes, (p.2.info.state = ProcessState.Running ↔ p.2.info.pid ≠ none)

/-! ### Concrete configurations and oracles used by witnesses -/

/-- A plain configuration without auto-restart. -/
def cfgA : ProcessConfig :=
  { name := "a", command := "run", args := [], cwd := none, env := [],
    auto_restart := false, restart_limit := 0, restart_delay := 100,
    depends_on := [], health_check := none }

/-- A manager holding one running process named `a`. -/
def mRun : ProcessManager :=
  (ProcessManager.new.start cfgA (SpawnOutcome.ok (some 7)) 0).2

/-- The restart-policy proposition of claim C1, spelled out. -/
def PolicyAllows (h : ProcessHandle) : Prop :=
  h.config.auto_restart = true ∧
    (h.config.restart_limit = 0 ∨ h.restart_count < h.config.restart_limit)

/-- Good handle: `Running` iff pid present. -/
def GoodH (h : ProcessHandle) : Prop :=
  h.info.state = ProcessState.Running ↔ h.info.pid ≠ none

/-- A crash-looping configuration: auto-restart with unlimited budget. -/
def cfgC : ProcessConfig :=
  { name := "c", command := "run", args := ["x"], cwd := none, env := [],
    auto_restart := true, restart_limit := 0, restart_delay := 1000,
    depends_on := [], health_check := none }

/-- Oracle under which every child is observed exited with code 1 and
every respawn succeeds with pid 9. -/
def orcC : HealthOracle :=
  { exitObserved := fun _ => some 1, respawn := fun _ => SpawnOutcome.ok (some 9) }

/-- One `check_health` sweep under `orcC`. -/
def healthOp : SOp := SOp.checkHealth orcC 0

/-- A manager holding one running crash-looping process named `c`. -/
def mC : ProcessManager :=
  (ProcessManager.new.start cfgC (SpawnOutcome.ok (some 9)) 0).2

/-- Start `cfgC`, then run `k` health sweeps, each observing a crash and
successfully respawning. -/
def c5Ops (k : Nat) : List SOp :=
  SOp.start cfgC (SpawnOutcome.ok (some 9)) 0 :: List.replicate k healthOp

/-- The handle for `c` after `c5Ops k`. -/
def c5Handle : Nat → ProcessHandle
  | 0 => startHandle cfgC (some 9) 0
  | k + 1 => respawnFixup k 0 (startHandle cfgC (some 9) 0)

/-! ## Configuration validation (`config.rs`)

`HashSet<&str>` values (`visited`, `rec_stack`, the name set) are
modelled as duplicate-free `List String` with `sInsert`/`sRemove`;
`HashMap<&str, Vec<&str>>` (the graph) as an association list. -/

/-- `HashSet::insert`. -/
def sInsert (s : List String) (x : String) : List String :=
  if x ∈ s then s else x :: s

/-- `HashSet::remove`. -/
def sRemove (s : List String) (x : String) : List String :=
  s.erase x

/-- The `Config` value consumed by `validate` (settings are not read by
validation and are omitted). -/
structure Config where
  processes : List ProcessConfig
  global_env : List (String × String)
deriving DecidableEq, Repr

/-- `s.trim().is_empty()`. -/
def trimIsEmpty (s : String) : Bool :=
  s.toList.all Char.isWhitespace

/-- The declared name list (insertion order). -/
def allNames (ps : List ProcessConfig) : List String := ps.map (·.name)

/-- The duplicate-name scan of `validate` (lines 137–144): walks the
processes inserting names into a set, reporting the first repeat. -/
def findDuplicate : List ProcessConfig → List String → Option String
  | [], _ => none
  | p :: ps, seen =>
      if p.name ∈ seen then some p.name else findDuplicate ps (p.name :: seen)

/-- The dependency scan of `validate_process` (lines 174–180): first
`depends_on` entry absent from the name set. -/
def firstUnknownDep (pname : String) : List String → List String → Option SentinelError
  | [], _ => none
  | d :: ds, names =>
      if d ∈ names then firstUnknownDep pname ds names
      else some (SentinelError.UnknownDependency pname d)

/-- `ConfigManager::validate_process` (lines 158–184). -/
def validate_process (p : ProcessConfig) (names : List String) : Option SentinelError :=
  if trimIsEmpty p.name then
    some (SentinelError.InvalidConfig "Process name cannot be empty")
  else if trimIsEmpty p.command then
    some (SentinelError.InvalidConfig ("Process " ++ p.name ++ " has empty command"))
  else firstUnknownDep p.name p.depends_on names

/-- The per-process validation loop (lines 147–149). -/
def validateProcesses : List ProcessConfig → List String → Option SentinelError
  | [], _ => none
  | p :: ps, names =>
      match validate_process p names with
      | some e => some e
      | none => validateProcesses ps names

/-- The dependency graph of `check_dependency_cycles` (lines 188–196):
`name → depends_on`, later duplicates overwriting. -/
def buildGraph (ps : List ProcessConfig) : List (String × List String) :=
  ps.foldl (fun g p => alInsert g p.name p.depends_on) []

/-- `graph.get(node)`, absent keys giving no neighbours. -/
def gNeighbors (g : List (String × List String)) (n : String) : List String :=
  (alLookup g n).getD []

/-- The edge relation of the dependency graph: `u` depends on `v`. -/
def gEdge (g : List (String × List String)) (u v : String) : Prop :=
  v ∈ gNeighbors g u

/-- The graph has a (directed) cycle. -/
def HasCycle (g : List (String × List String)) : Prop :=
  ∃ n, Relation.TransGen (gEdge g) n n

/-- The neighbour loop body of `dfs_cycle` (lines 225–236): skip once a
cycle is found; a visited neighbour on the recursion stack is a back
edge reported as `[neighbor, node]`; an unvisited neighbour recurses
through `fprev` (the one-less-fuel instance of the DFS). -/
def dfsFoldStep
    (fprev : String → List String → List String →
      Option (List String) × List String × List String)
    (node : String)
    (acc : Option (List String) × List String × List String) (nb : String) :
    Option (List String) × List String × List String :=
  match acc with
  | (some cyc, v, r) => (some cyc, v, r)
  | (none, v, r) =>
      if nb ∈ v then
        if nb ∈ r then (some [nb, node], v, r) else (none, v, r)
      else fprev nb v r

/-- `ConfigManager::dfs_cycle` (lines 216–240), fuel-indexed so the
recursion is structural; with fuel larger than the number of reachable
unvisited nodes the 0-fuel branch is never taken. -/
def dfsCycle (g : List (String × List String)) :
    Nat → String → List String → List String →
      Option (List String) × List String × List String
  | 0, _, visited, recStack => (none, visited, recStack)
  | Nat.succ fuel, node, visited, recStack =>
      match (gNeighbors g node).foldl
          (dfsFoldStep (dfsCycle g fuel) node)
          (none, sInsert visited node, sInsert recStack node) with
      | (some cyc, v, r) => (some cyc, v, r)
      | (none, v, r) => (none, v, sRemove r node)

/-- The driver loop of `check_dependency_cycles` (lines 202–210):
run the DFS from every not-yet-visited process, in declaration order. -/
def cyclesScan (g : List (String × List String)) (fuel : Nat) :
    List String → List String → List String → Option (List String)
  | [], _, _ => none
  | n :: ns, v, r =>
      if n ∈ v then cyclesScan g fuel ns v r
      else
        match dfsCycle g fuel n v r with
        | (some cyc, _, _) => some cyc
        | (none, v', r') => cyclesScan g fuel ns v' r'

/-- Fuel sufficient for every DFS of this config: more than the number
of node names occurring anywhere (as a process or as a dependency). -/
def graphFuel (ps : List ProcessConfig) : Nat :=
  ps.length + (ps.map (·.depends_on.length)).sum + 1

/-- `ConfigManager::check_dependency_cycles` (lines 187–213). -/
def check_dependency_cycles (ps : List ProcessConfig) : Option SentinelError :=
  match cyclesScan (buildGraph ps) (graphFuel ps) (allNames ps) [] [] with
  | some cyc => some (SentinelError.DependencyCycle cyc)
  | none => none

/-- `ConfigManager::validate` (lines 135–155): duplicate names, then
per-process checks, then cycle detection. -/
def validate (c : Config) : Except SentinelError Unit :=
  match findDuplicate c.processes [] with
  | some n => Except.error (SentinelError.InvalidConfig ("Duplicate process name: " ++ n))
  | none =>
      match validateProcesses c.processes (allNames c.processes) with
      | some e => Except.error e
      | none =>
          match check_dependency_cycles c.processes with
          | some e => Except.error e
          | none => Except.ok ()

/-! ### CLI batch start (`cli/src/commands/start.rs`) -/

/-- One iteration of the CLI start loop (lines 51–71): attempt `start`
for the next declared process, recording the attempt order. -/
def cliStartFoldStep (sp : String → SpawnOutcome) (t : Nat)
    (acc : ProcessManager × List String) (p : ProcessConfig) :
    ProcessManager × List String :=
  ((acc.1.start p (sp p.name) t).2, acc.2 ++ [p.name])

/-- The CLI `start` command's batch loop: processes are started in
declaration order (`for process_config in &config.processes`). -/
def cliBatchStart (c : Config) (sp : String → SpawnOutcome) (t : Nat) :
    ProcessManager × List String :=
  c.processes.foldl (cliStartFoldStep sp t) (ProcessManager.new, [])

/-- `x` occurs strictly before `y` in `l`. -/
def precedesIn (l : List String) (x y : String) : Prop :=
  l.indexOf x < l.indexOf y ∧ x ∈ l ∧ y ∈ l

/-! ### Correctness apparatus for the DFS -/

/-- Reverse-topological list: every element's graph neighbours lie in
its tail (elements are listed most-recently-finished first). -/
inductive RTopo (g : List (String × List String)) : List String → Prop where
  | nil : RTopo g []
  | cons (u : String) (L : List String) : RTopo g L →
      (∀ v, gEdge g u v → v ∈ L) → u ∉ L → RTopo g (u :: L)

/-- `U` is closed under the graph's edges. -/
def GClosed (g : List (String × List String)) (U : List String) : Prop :=
  ∀ u nb, u ∈ U → nb ∈ gNeighbors g u → nb ∈ U

/-- Number of universe nodes not yet visited. -/
def unvisitedCount (U v : List String) : Nat :=
  (U.dedup.filter (fun x => ¬ x ∈ v)).length

/-- The state invariant of the DFS: the visited set partitions into a
reverse-topological finished list `L` and the recursion stack. -/
def DoneInv (g : List (String × List String)) (v r L : List String) : Prop :=
  (∀ x, x ∈ v ↔ (x ∈ L ∨ x ∈ r)) ∧ RTopo g L ∧ (∀ x ∈ L, ¬ x ∈ r)

/-! ### Concrete configs for the C4/C8 counterexamples and witnesses -/

/-- A process depending on one declared later. -/
def pA4 : ProcessConfig :=
  { name := "a", command := "cmd", args := [], cwd := none, env := [],
    auto_restart := true, restart_limit := 5, restart_delay := 1000,
    depends_on := ["b"], health_check := none }

/-- Its dependency, declared second. -/
def pB4 : ProcessConfig :=
  { name := "b", command := "cmd", args := [], cwd := none, env := [],
    auto_restart := true, restart_limit := 5, restart_delay := 1000,
    depends_on := [], health_check := none }

/-- Valid, acyclic config whose dependency is declared after its
dependent. -/
def cfg4 : Config := { processes := [pA4, pB4], global_env := [] }

/-- Three processes forming the 3-cycle a → b → c → a. -/
def pA3 : ProcessConfig := { pA4 with depends_on := ["b"] }

def pB3 : ProcessConfig := { pB4 with depends_on := ["c"] }

def pC3 : ProcessConfig :=
  { name := "c", command := "cmd", args := [], cwd := none, env := [],
    auto_restart := true, restart_limit := 5, restart_delay := 1000,
    depends_on := ["a"], health_check := none }

/-- Config with a three-node dependency cycle. -/
def cfg3 : Config := { processes := [pA3, pB3, pC3], global_env := [] }

/-- A process depending on an undeclared name. -/
def pU : ProcessConfig :=
  { name := "u", command := "cmd", args := [], cwd := none, env := [],
    auto_restart := true, restart_limit := 5, restart_delay := 1000,
    depends_on := ["ghost"], health_check := none }

/-- Config with an unknown dependency. -/
def cfgU : Config := { processes := [pU], global_env := [] }

/-! ## PTY supervisor (`pty_process_manager.rs`)

The PTY pair, the reader task, and the event sink are omitted: only the
handle/config maps and the returned pid are supervisor-state
observable. -/

/-- `ProcessConfig` of `pty_process_manager.rs` (stored for restart). -/
structure PtyProcessConfig where
  process_id : String
  command : String
  args : List String
  cwd : Option String
  env : Option (List (String × String))
deriving DecidableEq, Repr

/-- `ProcessHandle` of `pty_process_manager.rs`. -/
structure PtyHandle where
  process_id : String
  pid : Nat
  config : PtyProcessConfig
deriving DecidableEq, Repr

/-- `PtyProcessManager` — handle map and config map. -/
structure PtyProcessManager where
  processes : List (String × PtyHandle)
  configs : List (String × PtyProcessConfig)
deriving DecidableEq, Repr

/-- `PtyProcessManager::new`. -/
def PtyProcessManager.new : PtyProcessManager := ⟨[], []⟩

/-- Outcome of `openpty` + `spawn_command` + `process_id()`. -/
inductive PtySpawnOutcome where
  | ok (pid : Nat)
  | fail
deriving DecidableEq, Repr

/-- `PtyProcessManager::spawn_process` (lines 65–205): spawn in a fresh
PTY, store the config, store the handle.  There is **no** check whether
a handle for `process_id` already exists — `HashMap::insert` replaces
it. -/
def PtyProcessManager.spawn_process (m : PtyProcessManager)
    (process_id command : String) (args : List String) (cwd : Option String)
    (env : Option (List (String × String))) (sp : PtySpawnOutcome) :
    Except SentinelError Nat × PtyProcessManager :=
  match sp with
  | PtySpawnOutcome.fail => (Except.error (SentinelError.Other "Failed to spawn command"), m)
  | PtySpawnOutcome.ok pid =>
      let config : PtyProcessConfig :=
        { process_id := process_id, command := command, args := args,
          cwd := cwd, env := env }
      let handle : PtyHandle := { process_id := process_id, pid := pid, config := config }
      (Except.ok pid,
       { processes := alInsert m.processes process_id handle,
         configs := alInsert m.configs process_id config })

/-- `PtyProcessManager::kill_process` (lines 208–238). -/
def PtyProcessManager.kill_process (m : PtyProcessManager) (process_id : String) :
    Except SentinelError Unit × PtyProcessManager :=
  match alLookup m.processes process_id with
  | some _ => (Except.ok (), { m with processes := alRemove m.processes process_id })
  | none => (Except.error (SentinelError.ProcessNotFound process_id), m)

/-- `PtyProcessManager::is_running` — `contains_key`. -/
def PtyProcessManager.is_running (m : PtyProcessManager) (process_id : String) : Bool :=
  (alLookup m.processes process_id).isSome

/-- `PtyProcessManager::restart_process` (lines 259–288). -/
def PtyProcessManager.restart_process (m : PtyProcessManager) (process_id : String)
    (sp : PtySpawnOutcome) : Except SentinelError Nat × PtyProcessManager :=
  match alLookup m.configs process_id with
  | none => (Except.error (SentinelError.ProcessNotFound process_id), m)
  | some config =>
      let m1 := if m.is_running process_id then (m.kill_process process_id).2 else m
      m1.spawn_process config.process_id config.command config.args config.cwd
        config.env sp

/-- Manager holding one live PTY process `x` with pid 11. -/
def ptyM1 : PtyProcessManager :=
  (PtyProcessManager.new.spawn_process "x" "cmd" [] none none (PtySpawnOutcome.ok 11)).2

end Sentinel

/-! # Theorems -/

namespace Sentinel

/-! ## Association list lemmas -/

theorem alLookup_insert_self {α : Type} (l : List (String × α)) (k : String) (v : α) :
    alLookup (alInsert l k v) k = some v := by
  induction l with
  | nil => simp [alInsert, alLookup]
  | cons p t ih =>
    by_cases h : p.1 = k <;> simp [alInsert, alLookup, h, ih]

theorem alLookup_insert_ne {α : Type} (l : List (String × α)) (k k' : String) (v : α)
    (h : k ≠ k') : alLookup (alInsert l k v) k' = alLookup l k' := by
  induction l with
  | nil => simp [alInsert, alLookup, h]
  | cons p t ih =>
    by_cases hp : p.1 = k
    · simp only [alInsert, if_pos hp, alLookup]
      have hk' : ¬ (k = k') := h
      have hp' : ¬ (p.1 = k') := fun hc => h (hp ▸ hc)
      simp [hk', hp']
    · simp only [alInsert, if_neg hp, alLookup]
      by_cases hq : p.1 = k' <;> simp [hq, ih]

theorem alLookup_update_self {α : Type} (l : List (String × α)) (k : String) (f : α → α) :
    alLookup (alUpdate l k f) k = (alLookup l k).map f := by
  induction l with
  | nil => simp [alUpdate, alLookup]
  | cons p t ih =>
    by_cases h : p.1 = k <;> simp [alUpdate, alLookup, h, ih]

theorem alLookup_update_ne {α : Type} (l : List (String × α)) (k k' : String) (f : α → α)
    (h : k ≠ k') : alLookup (alUpdate l k f) k' = alLookup l k' := by
  induction l with
  | nil => simp [alUpdate, alLookup]
  | cons p t ih =>
    by_cases hp : p.1 = k
    · have hp' : ¬ (p.1 = k') := fun hc => h (hp ▸ hc)
      have hk : ¬ (k = k') := h
      simp [alUpdate, alLookup, hp, hp', hk]
    · have hk : ¬ (k' = k) := fun hc => h hc.symm
      by_cases hq : p.1 = k' <;> simp [alUpdate, alLookup, hp, hq, hk, ih]

theorem mem_alInsert {α : Type} (l : List (String × α)) (k : String) (v : α)
    (p : String × α) (h : p ∈ alInsert l k v) : p ∈ l ∨ p = (k, v) := by
  induction l with
  | nil => simp [alInsert] at h; simp [h]
  | cons q t ih =>
    by_cases hq : q.1 = k
    · simp only [alInsert, if_pos hq, List.mem_cons] at h
      rcases h with h | h
      · right; exact h
      · left; simp [h]
    · simp only [alInsert, if_neg hq, List.mem_cons] at h
      rcases h with h | h
      · left; simp [h]
      · rcases ih h with h2 | h2
        · left; simp [h2]
        · right; exact h2

theorem mem_alUpdate {α : Type} (l : List (String × α)) (k : String) (f : α → α)
    (p : String × α) (h : p ∈ alUpdate l k f) :
    p ∈ l ∨ ∃ q ∈ l, q.1 = k ∧ p = (k, f q.2) := by
  induction l with
  | nil => simp [alUpdate] at h
  | cons q t ih =>
    by_cases hq : q.1 = k
    · simp only [alUpdate, if_pos hq, List.mem_cons] at h
      rcases h with h | h
      · right; exact ⟨q, by simp, hq, h⟩
      · left; simp [h]
    · simp only [alUpdate, if_neg hq, List.mem_cons] at h
      rcases h with h | h
      · left; simp [h]
      · rcases ih h with h2 | ⟨r, hr, hrk, hp⟩
        · left; simp [h2]
        · right; exact ⟨r, by simp [hr], hrk, hp⟩

theorem mem_alRemove {α : Type} (l : List (String × α)) (k : String)
    (p : String × α) (h : p ∈ alRemove l k) : p ∈ l := by
  induction l with
  | nil => simp [alRemove] at h
  | cons q t ih =>
    by_cases hq : q.1 = k
    · simp only [alRemove, if_pos hq] at h
      simp [h]
    · simp only [alRemove, if_neg hq, List.mem_cons] at h
      rcases h with h | h
      · simp [h]
      · simp [ih h]

/-! ## Log buffer lemmas and C3 -/

namespace LogBuffer

theorem pushAll_nil (b : LogBuffer) : b.pushAll [] = b := rfl

theorem pushAll_cons (b : LogBuffer) (l : LogLine) (ls : List LogLine) :
    b.pushAll (l :: ls) = (b.push l).pushAll ls := rfl

theorem max_lines_push (b : LogBuffer) (l : LogLine) :
    (b.push l).max_lines = b.max_lines := rfl

theorem len_push (b : LogBuffer) (l : LogLine) :
    (b.push l).len =
      (if b.lines.length ≥ b.max_lines then b.lines.tail.length else b.lines.length) + 1 := by
  by_cases h : b.lines.length ≥ b.max_lines <;> simp [push, len, h]

/-- A push preserves `len ≤ capacity` provided the capacity is at least 1. -/
theorem len_push_le (b : LogBuffer) (l : LogLine) (hc : 1 ≤ b.max_lines)
    (h : b.len ≤ b.max_lines) : (b.push l).len ≤ b.max_lines := by
  have hlen : b.len = b.lines.length := rfl
  rw [len_push]
  by_cases hge : b.lines.length ≥ b.max_lines
  · simp only [hge, if_true, List.length_tail]
    omega
  · simp only [hge, if_false]
    omega

theorem len_pushAll_le (ls : List LogLine) (b : LogBuffer) (hc : 1 ≤ b.max_lines)
    (h : b.len ≤ b.max_lines) : (b.pushAll ls).len ≤ b.max_lines := by
  induction ls generalizing b with
  | nil => exact h
  | cons l ls ih =>
    rw [pushAll_cons]
    have := ih (b.push l) (by rw [max_lines_push]; exact hc)
      (by rw [max_lines_push]; exact len_push_le b l hc h)
    rwa [max_lines_push] at this

/-- With capacity 0, each push evicts everything then appends one line. -/
theorem len_push_capacity_zero (b : LogBuffer) (l : LogLine)
    (hm : b.max_lines = 0) (h : b.len ≤ 1) : (b.push l).len = 1 := by
  rw [len_push]
  have hge : b.lines.length ≥ b.max_lines := by omega
  simp only [hge, if_true, List.length_tail]
  simp only [len] at h
  omega

theorem len_pushAll_capacity_zero (ls : List LogLine) (b : LogBuffer)
    (hm : b.max_lines = 0) (h : b.len ≤ 1) :
    (b.pushAll ls).len = if ls.isEmpty then b.len else 1 := by
  induction ls generalizing b with
  | nil => simp [pushAll_nil]
  | cons l ls ih =>
    rw [pushAll_cons]
    have h1 : (b.push l).len = 1 := len_push_capacity_zero b l hm h
    have := ih (b.push l) (by rw [max_lines_push]; exact hm) (by omega)
    rw [this, h1]
    by_cases he : ls.isEmpty <;> simp [he]

end LogBuffer

/-- C3 (counterexample): a `LogBuffer` of capacity 0 does **not** retain
nothing — after one push it holds that line and `len() = 1 > 0`, because
`push` pops from an already-empty deque before appending. -/
theorem c3_capacity_zero_counterexample :
    ((LogBuffer.with_capacity 0).push c3Line).len = 1 ∧
    ¬ (((LogBuffer.with_capacity 0).push c3Line).len ≤ 0) ∧
    ((LogBuffer.with_capacity 0).push c3Line).get_all = [c3Line] := by
  refine ⟨rfl, by decide, rfl⟩

/-- C3 (amended): for every capacity `C ≥ 1` and every push sequence,
`len() ≤ C` holds after every step; a buffer of capacity 0 instead
behaves like one of capacity 1: `len()` equals 0 before any push and
exactly 1 after any non-empty push sequence. -/
theorem c3_logBuffer_capacity_amended (C : Nat) (ls : List LogLine) :
    (1 ≤ C → ((LogBuffer.with_capacity C).pushAll ls).len ≤ C) ∧
    ((LogBuffer.with_capacity 0).pushAll ls).len = if ls.isEmpty then 0 else 1 := by
  constructor
  · intro hc
    exact LogBuffer.len_pushAll_le ls _ hc (by simp [LogBuffer.with_capacity, LogBuffer.len])
  · have := LogBuffer.len_pushAll_capacity_zero ls (LogBuffer.with_capacity 0) rfl
      (by simp [LogBuffer.with_capacity, LogBuffer.len])
    simpa [LogBuffer.with_capacity, LogBuffer.len] using this

/-- Witness for the amended C3 theorem at `C = 2` and a three-line push
sequence. -/
theorem c3_logBuffer_capacity_amended_witness :
    ((LogBuffer.with_capacity 2).pushAll [c3Line, c3Line, c3Line]).len ≤ 2 :=
  (c3_logBuffer_capacity_amended 2 [c3Line, c3Line, c3Line]).1 (by decide)

/-! ## Supervisor: shape lemmas for `start` -/

theorem startSpawn_cases (m : ProcessManager) (c : ProcessConfig) (sp : SpawnOutcome)
    (t : Nat) :
    (∃ e, m.startSpawn c sp t = (Except.error e, m)) ∨
    (∃ id, sp = SpawnOutcome.ok id ∧
      m.startSpawn c sp t = (Except.ok (startInfo c id t),
        ⟨alInsert m.processes c.name (startHandle c id t)⟩)) := by
  unfold ProcessManager.startSpawn
  split
  · exact Or.inl ⟨_, rfl⟩
  · cases sp with
    | fail => exact Or.inl ⟨_, rfl⟩
    | ok id => exact Or.inr ⟨id, rfl, rfl⟩

theorem start_cases (m : ProcessManager) (c : ProcessConfig) (sp : SpawnOutcome)
    (t : Nat) :
    (∃ e, m.start c sp t = (Except.error e, m)) ∨
    (∃ id, sp = SpawnOutcome.ok id ∧
      m.start c sp t = (Except.ok (startInfo c id t),
        ⟨alInsert m.processes c.name (startHandle c id t)⟩)) := by
  unfold ProcessManager.start
  split
  · split
    · exact Or.inl ⟨_, rfl⟩
    · exact startSpawn_cases m c sp t
  · exact startSpawn_cases m c sp t

/-- A successful `start` both returns `startInfo` and installs
`startHandle`. -/
theorem start_ok_shape (m : ProcessManager) (c : ProcessConfig) (sp : SpawnOutcome)
    (t : Nat) (info : ProcessInfo) (h : (m.start c sp t).1 = Except.ok info) :
    ∃ id, sp = SpawnOutcome.ok id ∧ info = startInfo c id t ∧
      (m.start c sp t).2 = ⟨alInsert m.processes c.name (startHandle c id t)⟩ := by
  rcases start_cases m c sp t with ⟨e, he⟩ | ⟨id, hsp, hok⟩
  · rw [he] at h; cases h
  · refine ⟨id, hsp, ?_, by rw [hok]⟩
    rw [hok] at h
    cases h
    rfl

/-- A fully enabled spawn: target not running, command resolvable, OS
spawn succeeded. -/
theorem start_ok_eq (m : ProcessManager) (c : ProcessConfig) (id : Option Nat) (t : Nat)
    (hnr : ∀ h, alLookup m.processes c.name = some h → h.info.is_running = false)
    (hcmd : ¬ (c.args.isEmpty ∧ (splitWhitespace c.command).isEmpty)) :
    m.start c (SpawnOutcome.ok id) t =
      (Except.ok (startInfo c id t),
       ⟨alInsert m.processes c.name (startHandle c id t)⟩) := by
  unfold ProcessManager.start ProcessManager.startSpawn
  cases hl : alLookup m.processes c.name with
  | none => rw [if_neg hcmd]
  | some h =>
      have hr := hnr h hl
      simp only [hr, Bool.false_eq_true, if_false]
      rw [if_neg hcmd]

/-- C7: a failed `start` is atomic — whenever it returns an error, the
map of managed handles is unchanged, so an absent handle stays absent
and an existing handle keeps its prior state. -/
theorem c7_start_failure_atomic (m : ProcessManager) (c : ProcessConfig)
    (sp : SpawnOutcome) (t : Nat) (e : SentinelError)
    (h : (m.start c sp t).1 = Except.error e) : (m.start c sp t).2 = m := by
  rcases start_cases m c sp t with ⟨e', he⟩ | ⟨id, hsp, hok⟩
  · rw [he]
  · rw [hok] at h; cases h

/-- Witness for C7: starting `a` again while it runs fails with
`AlreadyRunning` and leaves the manager unchanged. -/
theorem c7_start_failure_atomic_witness :
    (mRun.start cfgA SpawnOutcome.fail 1).1 =
      Except.error (SentinelError.ProcessAlreadyRunning "a" 7) ∧
    (mRun.start cfgA SpawnOutcome.fail 1).2 = mRun :=
  ⟨rfl,
   c7_start_failure_atomic mRun cfgA SpawnOutcome.fail 1
     (SentinelError.ProcessAlreadyRunning "a" 7) rfl⟩

/-- C10: every successful `start` returns a `ProcessInfo` with
`restart_count = 0` and installs a handle with `restart_count = 0`,
regardless of any restart accounting of a previous handle of the same
name; a manual `restart` therefore also reports `restart_count = 0`. -/
theorem c10_start_resets_restart_count (m : ProcessManager) (c : ProcessConfig)
    (sp : SpawnOutcome) (t : Nat) (info : ProcessInfo) :
    ((m.start c sp t).1 = Except.ok info →
      info.restart_count = 0 ∧
      (alLookup (m.start c sp t).2.processes c.name).map (·.restart_count) = some 0 ∧
      ((m.start c sp t).2.get c.name).map (·.restart_count) = some 0) ∧
    (∀ n, (m.restart n sp t).1 = Except.ok info → info.restart_count = 0) := by
  constructor
  · intro h
    rcases start_ok_shape m c sp t info h with ⟨id, hsp, hinfo, hsnd⟩
    refine ⟨by rw [hinfo]; rfl, ?_, ?_⟩
    · rw [hsnd]
      simp [alLookup_insert_self, startHandle]
    · rw [hsnd]
      simp [ProcessManager.get, alLookup_insert_self, startHandle, startInfo]
  · intro n h
    unfold ProcessManager.restart at h
    cases hl : alLookup m.processes n with
    | none => rw [hl] at h; cases h
    | some hd =>
        rw [hl] at h
        rcases start_ok_shape _ _ _ _ _ h with ⟨id, hsp, hinfo, _⟩
        rw [hinfo]; rfl

/-- Witness for C10: after `a` (running, then stopped) is restarted, the
reported restart count is 0. -/
theorem c10_start_resets_restart_count_witness :
    ((mRun.restart "a" (SpawnOutcome.ok (some 8)) 1).1 =
      Except.ok (startInfo cfgA (some 8) 1)) ∧
    (startInfo cfgA (some 8) 1).restart_count = 0 :=
  ⟨rfl,
   (c10_start_resets_restart_count mRun cfgA (SpawnOutcome.ok (some 8)) 1
      (startInfo cfgA (some 8) 1)).2 "a" rfl⟩

/-- C6: `stop` fails with `ProcessNotFound` when the name is unmanaged;
returns success with no state change when the handle is not Running;
and on a Running handle returns success with `is_running` false, state
`Stopped`, and pid `None` afterwards. -/
theorem c6_stop_spec (m : ProcessManager) (n : String) (t : Nat) :
    (alLookup m.processes n = none →
      m.stop n t = (Except.error (SentinelError.ProcessNotFound n), m)) ∧
    (∀ h, alLookup m.processes n = some h → h.info.is_running = false →
      m.stop n t = (Except.ok (), m)) ∧
    (∀ h, alLookup m.processes n = some h → h.info.is_running = true →
      (m.stop n t).1 = Except.ok () ∧
      (m.stop n t).2.is_running n = false ∧
      ((m.stop n t).2.get n).map (·.state) = some ProcessState.Stopped ∧
      ((m.stop n t).2.get n).map (·.pid) = some none) := by
  refine ⟨?_, ?_, ?_⟩
  · intro hl
    unfold ProcessManager.stop
    rw [hl]
  · intro h hl hr
    unfold ProcessManager.stop
    rw [hl]
    simp [hr]
  · intro h hl hr
    have hstop : m.stop n t =
        (Except.ok (), ⟨alUpdate m.processes n (fun _ => stopHandle h t)⟩) := by
      unfold ProcessManager.stop
      rw [hl]
      simp [hr]
    have hupd : alLookup (alUpdate m.processes n (fun _ => stopHandle h t)) n
        = some (stopHandle h t) := by
      rw [alLookup_update_self, hl]; rfl
    rw [hstop]
    refine ⟨rfl, ?_, ?_, ?_⟩
    · simp only [ProcessManager.is_running, hupd, Option.map_some]
      rfl
    · simp only [ProcessManager.get, hupd, Option.map_some]
      rfl
    · simp only [ProcessManager.get, hupd, Option.map_some]
      rfl

/-- Witness for C6, covering all three branches on concrete managers:
unknown name, running handle, and (after the stop) a non-running
handle. -/
theorem c6_stop_spec_witness :
    (ProcessManager.new.stop "a" 0 =
      (Except.error (SentinelError.ProcessNotFound "a"), ProcessManager.new)) ∧
    ((mRun.stop "a" 1).1 = Except.ok () ∧
      (mRun.stop "a" 1).2.is_running "a" = false ∧
      ((mRun.stop "a" 1).2.get "a").map (·.state) = some ProcessState.Stopped ∧
      ((mRun.stop "a" 1).2.get "a").map (·.pid) = some none) ∧
    ((mRun.stop "a" 1).2.stop "a" 2 = (Except.ok (), (mRun.stop "a" 1).2)) := by
  refine ⟨(c6_stop_spec ProcessManager.new "a" 0).1 rfl, ?_, ?_⟩
  · exact (c6_stop_spec mRun "a" 1).2.2 (startHandle cfgA (some 7) 0) rfl rfl
  · exact ((c6_stop_spec (mRun.stop "a" 1).2 "a" 2).2.1
      (stopHandle (startHandle cfgA (some 7) 0) 1) rfl rfl)

/-! ## Backoff arithmetic: C5 -/

/-- C5 (amended): the slept delay is `restart_delay × 2^restart_count`
only while `restart_count < 64` and the product fits in 64 bits; from
`restart_count = 64` on (reachable only with `restart_limit = 0`) the
wrapped multiplier `2^count mod 2^64` is 0 and the delay collapses
to 0. -/
theorem c5_backoff_amended (d c : Nat) :
    (c < 64 → d * 2 ^ c < 2 ^ 64 → backoffDelayMs d c = d * 2 ^ c) ∧
    (64 ≤ c → backoffDelayMs d c = 0) := by
  constructor
  · intro hc hd
    unfold backoffDelayMs saturatingMulU64 powU64Wrap U64_LIMIT
    have hpow : 2 ^ c % 2 ^ 64 = 2 ^ c :=
      Nat.mod_eq_of_lt (Nat.pow_lt_pow_right (by omega) hc)
    rw [hpow]
    omega
  · intro hc
    unfold backoffDelayMs saturatingMulU64 powU64Wrap U64_LIMIT
    have hdvd : 2 ^ 64 ∣ 2 ^ c := pow_dvd_pow 2 hc
    rw [Nat.mod_eq_zero_of_dvd hdvd]
    simp

/-- Witness for the amended C5 theorem: in-range and overflowed
evaluations. -/
theorem c5_backoff_amended_witness :
    backoffDelayMs 1000 3 = 1000 * 2 ^ 3 ∧ backoffDelayMs 1000 64 = 0 :=
  ⟨(c5_backoff_amended 1000 3).1 (by decide) (by norm_num),
   (c5_backoff_amended 1000 64).2 (by decide)⟩

/-- C5 (counterexample): under `restart_limit = 0` the policy reaches
`restart_count = 64` after 64 successful respawns; the next sweep still
decides to restart but sleeps `1000 × (2^64 mod 2^64) = 0` ms instead of
the claimed `restart_delay × 2^restart_count = 1000 × 2^64 ≠ 0`. -/
theorem c5_backoff_overflow_counterexample :
    (alLookup (runOps (c5Ops 64)).processes "c").map (·.restart_count) = some 64 ∧
    ((runOps (c5Ops 64)).checkHealthStep "c" orcC 0).restarted = true ∧
    ((runOps (c5Ops 64)).checkHealthStep "c" orcC 0).slept = some 0 ∧
    cfgC.restart_delay * 2 ^ 64 ≠ 0 := by
  set_option maxRecDepth 10000 in
  refine ⟨rfl, rfl, rfl, by decide⟩

/-! ## Health check: C1 -/

theorem restartPolicy_iff (h : ProcessHandle) :
    restartPolicy h = true ↔ PolicyAllows h := by
  unfold restartPolicy PolicyAllows
  simp [Bool.and_eq_true, Bool.or_eq_true, decide_eq_true_iff]

theorem restartPolicy_crashHandle (h : ProcessHandle) (code : Int) (t : Nat) :
    restartPolicy (crashHandle h code t) = restartPolicy h := rfl

/-- C1: a handle observed crashed by `check_health` is restarted iff
`auto_restart` holds and either `restart_limit = 0` or
`restart_count < restart_limit`; on a successful respawn the count
increments by one; when the policy refuses, the handle stays
`Crashed{exit_code}` with its count unchanged.  Unlimited restarts under
`restart_limit = 0` are the `Or.inl` case of the policy. -/
theorem c1_restart_policy (m : ProcessManager) (name : String) (orc : HealthOracle)
    (t : Nat) (h : ProcessHandle) (cp : ChildProc) (code : Int) (id : Option Nat)
    (hl : alLookup m.processes name = some h)
    (hchild : h.child = some cp)
    (hexit : orc.exitObserved name = some code)
    (hname : h.config.name = name)
    (hres : orc.respawn name = SpawnOutcome.ok id)
    (hcmd : ¬ (h.config.args.isEmpty ∧ (splitWhitespace h.config.command).isEmpty)) :
    ((m.checkHealthStep name orc t).restarted = true ↔ PolicyAllows h) ∧
    ((m.checkHealthStep name orc t).slept.isSome = true ↔ PolicyAllows h) ∧
    (PolicyAllows h →
      (alLookup (m.checkHealthStep name orc t).m.processes name).map (·.restart_count)
        = some (h.restart_count + 1) ∧
      (alLookup (m.checkHealthStep name orc t).m.processes name).map (·.info.state)
        = some ProcessState.Running) ∧
    (¬ PolicyAllows h →
      (m.checkHealthStep name orc t).restarted = false ∧
      alLookup (m.checkHealthStep name orc t).m.processes name
        = some (crashHandle h code t) ∧
      (crashHandle h code t).info.state = ProcessState.Crashed code ∧
      (crashHandle h code t).restart_count = h.restart_count) := by
  have hpolc : restartPolicy (crashHandle h code t) = restartPolicy h :=
    restartPolicy_crashHandle h code t
  have hm1 : alLookup (alUpdate m.processes name (fun _ => crashHandle h code t)) name
      = some (crashHandle h code t) := by
    rw [alLookup_update_self, hl]; rfl
  by_cases hp : PolicyAllows h
  · have hpb : restartPolicy (crashHandle h code t) = true := by
      rw [hpolc, restartPolicy_iff]; exact hp
    have hstart := start_ok_eq ⟨alUpdate m.processes name (fun _ => crashHandle h code t)⟩
      (crashHandle h code t).config id t
      (by
        intro h' hl'
        have hcn : (crashHandle h code t).config.name = name := hname
        rw [hcn] at hl'
        rw [hm1] at hl'
        cases hl'
        rfl)
      hcmd
    have hstep : m.checkHealthStep name orc t =
        { m := ⟨alUpdate (alInsert
              (alUpdate m.processes name (fun _ => crashHandle h code t))
              (crashHandle h code t).config.name
              (startHandle (crashHandle h code t).config id t)) name
              (respawnFixup (crashHandle h code t).restart_count t)⟩,
          restarted := true,
          slept := some (backoffDelayMs (crashHandle h code t).config.restart_delay
            (crashHandle h code t).restart_count) } := by
      unfold ProcessManager.checkHealthStep
      simp only [hl, hchild, hexit, hres, hpb, if_true, hstart]
    rw [hstep]
    have hcn : (crashHandle h code t).config.name = name := hname
    have hlook : alLookup (alInsert
        (alUpdate m.processes name (fun _ => crashHandle h code t))
        (crashHandle h code t).config.name
        (startHandle (crashHandle h code t).config id t)) name
        = some (startHandle (crashHandle h code t).config id t) := by
      rw [hcn]
      exact alLookup_insert_self _ _ _
    have hfix : alLookup (alUpdate (alInsert
        (alUpdate m.processes name (fun _ => crashHandle h code t))
        (crashHandle h code t).config.name
        (startHandle (crashHandle h code t).config id t)) name
        (respawnFixup (crashHandle h code t).restart_count t)) name
        = some (respawnFixup (crashHandle h code t).restart_count t
            (startHandle (crashHandle h code t).config id t)) := by
      rw [alLookup_update_self, hlook]; rfl
    refine ⟨by simp [hp], by simp [hp], fun _ => ⟨?_, ?_⟩, fun hnp => absurd hp hnp⟩
    · rw [hfix]; rfl
    · rw [hfix]; rfl
  · have hpb : restartPolicy (crashHandle h code t) = false := by
      rw [hpolc]
      cases hpb2 : restartPolicy h with
      | true => exact absurd ((restartPolicy_iff h).mp hpb2) hp
      | false => rfl
    have hstep : m.checkHealthStep name orc t =
        { m := ⟨alUpdate m.processes name (fun _ => crashHandle h code t)⟩,
          restarted := false, slept := none } := by
      unfold ProcessManager.checkHealthStep
      simp only [hl, hchild, hexit, hpb, Bool.false_eq_true, if_false]
    rw [hstep]
    refine ⟨by simpa using hp, by simpa using hp, fun hpp => absurd hpp hp,
      fun _ => ⟨rfl, hm1, rfl, rfl⟩⟩

/-- Witness for C1: the crash-looping process `c` (unlimited budget) is
restarted by the sweep and its restart count becomes 1. -/
theorem c1_restart_policy_witness :
    (mC.checkHealthStep "c" orcC 0).restarted = true ∧
    (alLookup (mC.checkHealthStep "c" orcC 0).m.processes "c").map (·.restart_count)
      = some 1 := by
  have H := c1_restart_policy mC "c" orcC 0 (startHandle cfgC (some 9) 0)
    { id := some 9 } 1 (some 9) rfl rfl rfl rfl rfl (by decide)
  exact ⟨H.1.mpr ⟨rfl, Or.inl rfl⟩, (H.2.2.1 ⟨rfl, Or.inl rfl⟩).1⟩

/-! ## Reachability invariant: C2 -/

theorem alLookup_mem {α : Type} (l : List (String × α)) (k : String) (v : α)
    (h : alLookup l k = some v) : ∃ p ∈ l, p.1 = k ∧ p.2 = v := by
  induction l with
  | nil => cases h
  | cons p t ih =>
    by_cases hp : p.1 = k
    · simp only [alLookup, hp, if_true] at h
      cases h
      exact ⟨p, by simp, hp, rfl⟩
    · simp only [alLookup, hp, if_false] at h
      rcases ih h with ⟨q, hq, h1, h2⟩
      exact ⟨q, by simp [hq], h1, h2⟩

theorem goodH_startHandle (c : ProcessConfig) (id : Option Nat) (t : Nat) :
    GoodH (startHandle c id t) := by
  simp [GoodH, startHandle, startInfo]

theorem goodH_stopHandle (h : ProcessHandle) (t : Nat) : GoodH (stopHandle h t) := by
  simp [GoodH, stopHandle]

theorem goodH_crashHandle (h : ProcessHandle) (code : Int) (t : Nat) :
    GoodH (crashHandle h code t) := by
  simp [GoodH, crashHandle]

theorem goodH_respawnFixup (rc t : Nat) (q : ProcessHandle) (hq : GoodH q) :
    GoodH (respawnFixup rc t q) := by
  simpa [GoodH, respawnFixup] using hq

theorem runIffPid_insert (l : List (String × ProcessHandle)) (k : String)
    (v : ProcessHandle) (hl : RunIffPid ⟨l⟩) (hv : GoodH v) :
    RunIffPid ⟨alInsert l k v⟩ := by
  intro p hp
  rcases mem_alInsert l k v p hp with h | h
  · exact hl p h
  · rw [h]; exact hv

theorem runIffPid_update (l : List (String × ProcessHandle)) (k : String)
    (f : ProcessHandle → ProcessHandle) (hl : RunIffPid ⟨l⟩)
    (hf : ∀ q, GoodH q → GoodH (f q)) : RunIffPid ⟨alUpdate l k f⟩ := by
  intro p hp
  rcases mem_alUpdate l k f p hp with h | ⟨q, hq, _, hpq⟩
  · exact hl p h
  · rw [hpq]; exact hf q.2 (hl q hq)

theorem runIffPid_remove (l : List (String × ProcessHandle)) (k : String)
    (hl : RunIffPid ⟨l⟩) : RunIffPid ⟨alRemove l k⟩ := by
  intro p hp
  exact hl p (mem_alRemove l k p hp)

theorem runIffPid_start (m : ProcessManager) (c : ProcessConfig) (sp : SpawnOutcome)
    (t : Nat) (hm : RunIffPid m) : RunIffPid (m.start c sp t).2 := by
  rcases start_cases m c sp t with ⟨e, he⟩ | ⟨id, _, hok⟩
  · rw [he]; exact hm
  · rw [hok]
    exact runIffPid_insert m.processes c.name _ hm (goodH_startHandle c id t)

theorem runIffPid_stop (m : ProcessManager) (n : String) (t : Nat)
    (hm : RunIffPid m) : RunIffPid (m.stop n t).2 := by
  unfold ProcessManager.stop
  cases hl : alLookup m.processes n with
  | none => exact hm
  | some h =>
    by_cases hr : h.info.is_running = true
    · simp only [hr, if_true]
      exact runIffPid_update m.processes n _ hm (fun q _ => goodH_stopHandle h t)
    · simp only [hr, Bool.false_eq_true, if_false]
      exact hm

theorem runIffPid_stop_gracefully (m : ProcessManager) (n : String) (t : Nat)
    (hm : RunIffPid m) : RunIffPid (m.stop_gracefully n t).2 := by
  unfold ProcessManager.stop_gracefully
  cases hl : alLookup m.processes n with
  | none => exact hm
  | some h =>
    by_cases hr : h.info.is_running = true
    · simp only [hr, if_true]
      exact runIffPid_update m.processes n _ hm (fun q _ => goodH_stopHandle h t)
    · simp only [hr, Bool.false_eq_true, if_false]
      exact hm

theorem runIffPid_restart (m : ProcessManager) (n : String) (sp : SpawnOutcome)
    (t : Nat) (hm : RunIffPid m) : RunIffPid (m.restart n sp t).2 := by
  unfold ProcessManager.restart
  cases hl : alLookup m.processes n with
  | none => exact hm
  | some h => exact runIffPid_start _ _ _ _ (runIffPid_stop m n t hm)

theorem runIffPid_remove_op (m : ProcessManager) (n : String)
    (hm : RunIffPid m) : RunIffPid (m.remove n).2 := by
  unfold ProcessManager.remove
  by_cases hr : m.is_running n = true
  · simp only [hr, if_true]; exact hm
  · simp only [hr, Bool.false_eq_true, if_false]
    exact runIffPid_remove m.processes n hm

theorem runIffPid_checkHealthStep (m : ProcessManager) (name : String)
    (orc : HealthOracle) (t : Nat) (hm : RunIffPid m) :
    RunIffPid (m.checkHealthStep name orc t).m := by
  unfold ProcessManager.checkHealthStep
  cases hl : alLookup m.processes name with
  | none => simp only [hl]; exact hm
  | some h =>
    cases hc : h.child with
    | none => simp only [hl, hc]; exact hm
    | some cp =>
      cases he : orc.exitObserved name with
      | none => simp only [hl, hc, he]; exact hm
      | some code =>
        simp only [hl, hc, he]
        have hm1 : RunIffPid ⟨alUpdate m.processes name (fun _ => crashHandle h code t)⟩ :=
          runIffPid_update m.processes name _ hm (fun q _ => goodH_crashHandle h code t)
        by_cases hp : restartPolicy (crashHandle h code t) = true
        · simp only [hp, if_true]
          rcases start_cases ⟨alUpdate m.processes name (fun _ => crashHandle h code t)⟩
              (crashHandle h code t).config (orc.respawn name) t with ⟨e, hse⟩ | ⟨id, _, hso⟩
          · rw [hse]; exact hm1
          · rw [hso]
            exact runIffPid_update _ name _
              (runIffPid_insert _ _ _ hm1 (goodH_startHandle _ id t))
              (goodH_respawnFixup _ t)
        · simp only [hp, Bool.false_eq_true, if_false]
          exact hm1

theorem runIffPid_health_fold (orc : HealthOracle) (t : Nat) (names : List String)
    (acc : CheckResult) (hacc : RunIffPid acc.m) :
    RunIffPid (names.foldl (healthFoldStep orc t) acc).m := by
  induction names generalizing acc with
  | nil => exact hacc
  | cons n ns ih =>
    exact ih _ (runIffPid_checkHealthStep acc.m n orc t hacc)

theorem runIffPid_check_health (m : ProcessManager) (orc : HealthOracle) (t : Nat)
    (hm : RunIffPid m) : RunIffPid (m.check_health orc t).m :=
  runIffPid_health_fold orc t _ _ hm

theorem runIffPid_stop_fold (t : Nat) (names : List String) (acc : ProcessManager)
    (hacc : RunIffPid acc) : RunIffPid (names.foldl (stopFoldStep t) acc) := by
  induction names generalizing acc with
  | nil => exact hacc
  | cons n ns ih => exact ih _ (runIffPid_stop acc n t hacc)

theorem runIffPid_stop_all (m : ProcessManager) (t : Nat) (hm : RunIffPid m) :
    RunIffPid (m.stop_all t) :=
  runIffPid_stop_fold t _ m hm

theorem runIffPid_apply (m : ProcessManager) (op : SOp) (hm : RunIffPid m) :
    RunIffPid (SOp.apply m op) := by
  cases op with
  | start c sp t => exact runIffPid_start m c sp t hm
  | stop n t => exact runIffPid_stop m n t hm
  | stopGracefully n t => exact runIffPid_stop_gracefully m n t hm
  | restart n sp t => exact runIffPid_restart m n sp t hm
  | checkHealth orc t => exact runIffPid_check_health m orc t hm
  | remove n => exact runIffPid_remove_op m n hm
  | stopAll t => exact runIffPid_stop_all m t hm

theorem runIffPid_fold (ops : List SOp) (m : ProcessManager) (hm : RunIffPid m) :
    RunIffPid (ops.foldl SOp.apply m) := by
  induction ops generalizing m with
  | nil => exact hm
  | cons op ops ih => exact ih _ (runIffPid_apply m op hm)

/-- C2: in every supervisor state reachable by any sequence of
operations (start, stop, stop_gracefully, restart, check_health, remove,
stop_all), every managed handle is `Running` iff its pid is not `None`. -/
theorem c2_running_iff_pid (ops : List SOp) (n : String) (h : ProcessHandle)
    (hl : alLookup (runOps ops).processes n = some h) :
    h.info.state = ProcessState.Running ↔ h.info.pid ≠ none := by
  have hinv : RunIffPid (runOps ops) :=
    runIffPid_fold ops ProcessManager.new (fun p hp => by cases hp)
  rcases alLookup_mem _ n h hl with ⟨p, hp, _, hv⟩
  have := hinv p hp
  rwa [hv] at this

/-- Witness for C2 at the one-start operation sequence: the running
handle `a` has a pid. -/
theorem c2_running_iff_pid_witness :
    (startHandle cfgA (some 7) 0).info.pid ≠ none :=
  (c2_running_iff_pid [SOp.start cfgA (SpawnOutcome.ok (some 7)) 0] "a"
    (startHandle cfgA (some 7) 0) rfl).mp rfl

/-! ## Set and counting lemmas for the DFS -/

theorem mem_sInsert (s : List String) (x y : String) :
    y ∈ sInsert s x ↔ y = x ∨ y ∈ s := by
  unfold sInsert
  by_cases h : x ∈ s
  · simp only [h, if_true]
    constructor
    · exact Or.inr
    · rintro (rfl | hy)
      · exact h
      · exact hy
  · simp [h, List.mem_cons]

theorem sInsert_eq_cons (s : List String) (x : String) (h : ¬ x ∈ s) :
    sInsert s x = x :: s := by simp [sInsert, h]

theorem sRemove_cons_self (s : List String) (x : String) :
    sRemove (x :: s) x = s := by simp [sRemove]

theorem length_filter_mono {α : Type} (l : List α) (p q : α → Bool)
    (himp : ∀ x, p x = true → q x = true) :
    (l.filter p).length ≤ (l.filter q).length := by
  induction l with
  | nil => simp
  | cons b t ih =>
    cases hp : p b with
    | true =>
        have hq : q b = true := himp b hp
        simp only [List.filter_cons, hp, hq, if_true, List.length_cons]
        omega
    | false =>
        cases hq : q b with
        | true =>
            simp only [List.filter_cons, hp, hq, Bool.false_eq_true, if_false, if_true,
              List.length_cons]
            omega
        | false =>
            simpa only [List.filter_cons, hp, hq, Bool.false_eq_true, if_false] using ih

theorem length_filter_lt {α : Type} (l : List α) (p q : α → Bool) (a : α)
    (ha : a ∈ l) (hpa : p a = false) (hqa : q a = true)
    (himp : ∀ x, p x = true → q x = true) :
    (l.filter p).length < (l.filter q).length := by
  induction l with
  | nil => cases ha
  | cons b t ih =>
    rcases List.mem_cons.mp ha with rfl | hat
    · simp only [List.filter_cons, hpa, hqa, Bool.false_eq_true, if_false, if_true,
        List.length_cons]
      have := length_filter_mono t p q himp
      omega
    · cases hp : p b with
      | true =>
          have hq : q b = true := himp b hp
          simp only [List.filter_cons, hp, hq, if_true, List.length_cons]
          have := ih hat
          omega
      | false =>
          cases hq : q b with
          | true =>
              simp only [List.filter_cons, hp, hq, Bool.false_eq_true, if_false, if_true,
                List.length_cons]
              have := ih hat
              omega
          | false =>
              simp only [List.filter_cons, hp, hq, Bool.false_eq_true, if_false]
              exact ih hat

theorem unvisitedCount_mono (U v w : List String) (h : ∀ x, x ∈ v → x ∈ w) :
    unvisitedCount U w ≤ unvisitedCount U v := by
  unfold unvisitedCount
  apply length_filter_mono
  intro x hx
  simp only [decide_eq_true_eq] at hx ⊢
  intro hxv
  exact hx (h x hxv)

theorem unvisitedCount_lt (U v : List String) (node : String)
    (hU : node ∈ U) (hv : ¬ node ∈ v) :
    unvisitedCount U (sInsert v node) < unvisitedCount U v := by
  unfold unvisitedCount
  apply length_filter_lt _ _ _ node (List.mem_dedup.mpr hU)
  · simp [mem_sInsert]
  · simp [hv]
  · intro x hx
    simp only [decide_eq_true_eq, mem_sInsert] at hx ⊢
    intro hxv
    exact hx (Or.inr hxv)

theorem unvisitedCount_pos (U v : List String) (node : String)
    (hU : node ∈ U) (hv : ¬ node ∈ v) : 1 ≤ unvisitedCount U v := by
  unfold unvisitedCount
  have : node ∈ U.dedup.filter (fun x => ¬ x ∈ v) := by
    rw [List.mem_filter]
    exact ⟨List.mem_dedup.mpr hU, by simp [hv]⟩
  calc 1 ≤ _ := List.length_pos.mpr (List.ne_nil_of_mem this)

/-! ## Reverse-topological lists exclude cycles -/

theorem rtopo_edge_idx (g : List (String × List String)) {L : List String}
    {a b : String} (hL : RTopo g L) (ha : a ∈ L) (hab : gEdge g a b) :
    b ∈ L ∧ L.indexOf a < L.indexOf b := by
  induction hL with
  | nil => cases ha
  | cons u M hM hnb hu ih =>
    rcases List.mem_cons.mp ha with rfl | haM
    · have hbM : b ∈ M := hnb b hab
      have hbu : b ≠ a := fun hc => hu (hc ▸ hbM)
      refine ⟨List.mem_cons_of_mem _ hbM, ?_⟩
      rw [List.indexOf_cons_self, List.indexOf_cons_ne _ (fun hc => hbu hc.symm)]
      omega
    · have hau : a ≠ u := fun hc => hu (hc ▸ haM)
      rcases ih haM with ⟨hbM, hidx⟩
      have hbu : b ≠ u := fun hc => hu (hc ▸ hbM)
      refine ⟨List.mem_cons_of_mem _ hbM, ?_⟩
      rw [List.indexOf_cons_ne _ (fun hc => hau hc.symm),
        List.indexOf_cons_ne _ (fun hc => hbu hc.symm)]
      omega

theorem rtopo_transGen_idx (g : List (String × List String)) {L : List String}
    {a b : String} (hL : RTopo g L) (hab : Relation.TransGen (gEdge g) a b)
    (ha : a ∈ L) : b ∈ L ∧ L.indexOf a < L.indexOf b := by
  induction hab with
  | single h => exact rtopo_edge_idx g hL ha h
  | tail _ hcb ih =>
    rcases ih with ⟨hc, hidx⟩
    rcases rtopo_edge_idx g hL hc hcb with ⟨hb, hidx2⟩
    exact ⟨hb, lt_trans hidx hidx2⟩

theorem rtopo_no_cycle (g : List (String × List String)) {L : List String}
    (hL : RTopo g L) (hsrc : ∀ u v, gEdge g u v → u ∈ L) : ¬ HasCycle g := by
  rintro ⟨n, hn⟩
  have hnL : n ∈ L := by
    rcases Relation.TransGen.head'_iff.mp hn with ⟨c, hnc, _⟩
    exact hsrc n c hnc
  rcases rtopo_transGen_idx g hL hn hnL with ⟨_, hidx⟩
  exact lt_irrefl _ hidx

/-! ## Main correctness lemma for `dfs_cycle` -/

theorem foldl_dfsFoldStep_some
    (f : String → List String → List String →
      Option (List String) × List String × List String)
    (node : String) (nbs : List String) (cyc : List String) (v r : List String) :
    nbs.foldl (dfsFoldStep f node) (some cyc, v, r) = (some cyc, v, r) := by
  induction nbs with
  | nil => rfl
  | cons nb t ih => exact ih

/-- Joint soundness and completeness of one `dfs_cycle` call: given
enough fuel, a well-formed visited/stack state, and a stack whose
members all reach `node`, a `some` result exhibits a back edge closing a
cycle, and a `none` result restores the stack and extends the finished
reverse-topological list to cover `node`. -/
theorem dfs_main (g : List (String × List String)) (U : List String)
    (hU : GClosed g U) :
    ∀ fuel node v r L,
      node ∈ U → ¬ node ∈ v → unvisitedCount U v < fuel →
      DoneInv g v r L →
      (∀ x ∈ r, Relation.ReflTransGen (gEdge g) x node) →
      (∀ cyc v' r', dfsCycle g fuel node v r = (some cyc, v', r') →
        ∃ a b, cyc = [a, b] ∧ gEdge g b a ∧ Relation.ReflTransGen (gEdge g) a b) ∧
      (∀ v' r', dfsCycle g fuel node v r = (none, v', r') →
        r' = r ∧ (∀ x ∈ v, x ∈ v') ∧ node ∈ v' ∧
        ∃ L', DoneInv g v' r' L' ∧ (∀ x ∈ L, x ∈ L')) := by
  intro fuel
  induction fuel with
  | zero =>
      intro node v r L hnU hnv hcount hinv hpath
      exact absurd hcount (by omega)
  | succ fuel ih =>
      intro node v r L hnU hnv hcount hinv hpath
      obtain ⟨hpart, htopo, hdisj⟩ := hinv
      have hvr : ¬ node ∈ r := fun hr => hnv ((hpart node).mpr (Or.inr hr))
      have hr1 : sInsert r node = node :: r := sInsert_eq_cons r node hvr
      have hposv : 1 ≤ unvisitedCount U v := unvisitedCount_pos U v node hnU hnv
      have hrsubv : ∀ x ∈ node :: r, x ∈ sInsert v node := by
        intro x hx
        rcases List.mem_cons.mp hx with rfl | hx
        · rw [mem_sInsert]; exact Or.inl rfl
        · rw [mem_sInsert]; exact Or.inr ((hpart x).mpr (Or.inr hx))
      -- The neighbour loop.
      have fold_main : ∀ (nbs v2 L2 : List String),
          (∀ nb ∈ nbs, nb ∈ gNeighbors g node) →
          (∀ x ∈ v, x ∈ v2) → node ∈ v2 →
          unvisitedCount U v2 ≤ unvisitedCount U v - 1 →
          DoneInv g v2 (node :: r) L2 → (∀ x ∈ L, x ∈ L2) →
          (∀ cyc v3 r3,
            nbs.foldl (dfsFoldStep (dfsCycle g fuel) node) (none, v2, node :: r)
              = (some cyc, v3, r3) →
            ∃ a b, cyc = [a, b] ∧ gEdge g b a ∧ Relation.ReflTransGen (gEdge g) a b) ∧
          (∀ v3 r3,
            nbs.foldl (dfsFoldStep (dfsCycle g fuel) node) (none, v2, node :: r)
              = (none, v3, r3) →
            r3 = node :: r ∧ (∀ x ∈ v2, x ∈ v3) ∧
            ∃ L3, DoneInv g v3 (node :: r) L3 ∧ (∀ x ∈ L2, x ∈ L3) ∧
              (∀ nb ∈ nbs, nb ∈ L3)) := by
        intro nbs
        induction nbs with
        | nil =>
            intro v2 L2 _ _ _ _ hinv2 hL2
            constructor
            · intro cyc v3 r3 hfold
              cases hfold
            · intro v3 r3 hfold
              injection hfold with h1 h2
              injection h2 with h2a h2b
              subst h2a; subst h2b
              exact ⟨rfl, fun x hx => hx, L2, hinv2, fun x hx => hx,
                by intro nb hnb; cases hnb⟩
        | cons nb nbs ihn =>
            intro v2 L2 hsub hvv2 hnodev2 hcnt2 hinv2 hL2
            obtain ⟨hpart2, htopo2, hdisj2⟩ := hinv2
            have hnbNbr : nb ∈ gNeighbors g node := hsub nb (by simp)
            have hsub' : ∀ x ∈ nbs, x ∈ gNeighbors g node :=
              fun x hx => hsub x (by simp [hx])
            by_cases hnbv : nb ∈ v2
            · by_cases hnbr : nb ∈ node :: r
              · -- back edge: report [nb, node]
                have hstep : dfsFoldStep (dfsCycle g fuel) node (none, v2, node :: r) nb
                    = (some [nb, node], v2, node :: r) := by
                  simp [dfsFoldStep, hnbv, hnbr]
                constructor
                · intro cyc v3 r3 hfold
                  rw [List.foldl_cons, hstep, foldl_dfsFoldStep_some] at hfold
                  injection hfold with h1 h2
                  injection h1 with h1
                  refine ⟨nb, node, h1.symm ▸ rfl, hnbNbr, ?_⟩
                  rcases List.mem_cons.mp hnbr with rfl | hnbr2
                  · exact Relation.ReflTransGen.refl
                  · exact hpath nb hnbr2
                · intro v3 r3 hfold
                  rw [List.foldl_cons, hstep, foldl_dfsFoldStep_some] at hfold
                  cases hfold
              · -- already finished neighbour: skip
                have hstep : dfsFoldStep (dfsCycle g fuel) node (none, v2, node :: r) nb
                    = (none, v2, node :: r) := by
                  simp [dfsFoldStep, hnbv, hnbr]
                have hnbL2 : nb ∈ L2 := by
                  rcases (hpart2 nb).mp hnbv with h | h
                  · exact h
                  · exact absurd h hnbr
                rcases ihn v2 L2 hsub' hvv2 hnodev2 hcnt2 ⟨hpart2, htopo2, hdisj2⟩ hL2
                  with ⟨hsome, hnone⟩
                constructor
                · intro cyc v3 r3 hfold
                  rw [List.foldl_cons, hstep] at hfold
                  exact hsome cyc v3 r3 hfold
                · intro v3 r3 hfold
                  rw [List.foldl_cons, hstep] at hfold
                  rcases hnone v3 r3 hfold with ⟨hre, hmono, L3, hinv3, hL23, hnbs3⟩
                  refine ⟨hre, hmono, L3, hinv3, hL23, ?_⟩
                  intro x hx
                  rcases List.mem_cons.mp hx with rfl | hx
                  · exact hL23 x hnbL2
                  · exact hnbs3 x hx
            · -- unvisited neighbour: recurse
              have hstep : dfsFoldStep (dfsCycle g fuel) node (none, v2, node :: r) nb
                  = dfsCycle g fuel nb v2 (node :: r) := by
                simp [dfsFoldStep, hnbv]
              have hnbU : nb ∈ U := hU node nb hnU hnbNbr
              have hcnt2' : unvisitedCount U v2 < fuel := by omega
              have hpath2 : ∀ x ∈ node :: r, Relation.ReflTransGen (gEdge g) x nb := by
                intro x hx
                rcases List.mem_cons.mp hx with rfl | hx
                · exact Relation.ReflTransGen.single hnbNbr
                · exact Relation.ReflTransGen.tail (hpath x hx) hnbNbr
              rcases ih nb v2 (node :: r) L2 hnbU hnbv hcnt2'
                ⟨hpart2, htopo2, hdisj2⟩ hpath2 with ⟨hsubSome, hsubNone⟩
              rcases hsd : dfsCycle g fuel nb v2 (node :: r) with ⟨o, v4, r4⟩
              cases o with
              | some cyc0 =>
                  constructor
                  · intro cyc v3 r3 hfold
                    rw [List.foldl_cons, hstep, hsd, foldl_dfsFoldStep_some] at hfold
                    injection hfold with h1 _
                    injection h1 with h1
                    subst h1
                    exact hsubSome cyc0 v4 r4 hsd
                  · intro v3 r3 hfold
                    rw [List.foldl_cons, hstep, hsd, foldl_dfsFoldStep_some] at hfold
                    cases hfold
              | none =>
                  rcases hsubNone v4 r4 hsd with ⟨hr4, hv2v4, hnbv4, L4, hinv4, hL24⟩
                  subst hr4
                  obtain ⟨hpart4, htopo4, hdisj4⟩ := hinv4
                  have hnbL4 : nb ∈ L4 := by
                    rcases (hpart4 nb).mp hnbv4 with h | h
                    · exact h
                    · exact absurd ((hpart2 nb).mpr (Or.inr h)) hnbv
                  have hcnt4 : unvisitedCount U v4 ≤ unvisitedCount U v - 1 := by
                    have := unvisitedCount_mono U v2 v4 hv2v4
                    omega
                  rcases ihn v4 L4 hsub' (fun x hx => hv2v4 x (hvv2 x hx))
                    (hv2v4 node hnodev2) hcnt4 ⟨hpart4, htopo4, hdisj4⟩
                    (fun x hx => hL24 x (hL2 x hx)) with ⟨hsome, hnone⟩
                  constructor
                  · intro cyc v3 r3 hfold
                    rw [List.foldl_cons, hstep, hsd] at hfold
                    exact hsome cyc v3 r3 hfold
                  · intro v3 r3 hfold
                    rw [List.foldl_cons, hstep, hsd] at hfold
                    rcases hnone v3 r3 hfold with ⟨hre, hmono, L3, hinv3, hL43, hnbs3⟩
                    refine ⟨hre, fun x hx => hmono x (hv2v4 x hx), L3, hinv3,
                      fun x hx => hL43 x (hL24 x hx), ?_⟩
                    intro x hx
                    rcases List.mem_cons.mp hx with rfl | hx
                    · exact hL43 x hnbL4
                    · exact hnbs3 x hx
      -- Apply the loop lemma to the freshly marked state.
      have hvv1 : ∀ x ∈ v, x ∈ sInsert v node := by
        intro x hx; rw [mem_sInsert]; exact Or.inr hx
      have hnodev1 : node ∈ sInsert v node := by rw [mem_sInsert]; exact Or.inl rfl
      have hcnt1 : unvisitedCount U (sInsert v node) ≤ unvisitedCount U v - 1 := by
        have := unvisitedCount_lt U v node hnU hnv
        omega
      have hLsubv : ∀ x ∈ L, x ∈ v := fun x hx => (hpart x).mpr (Or.inl hx)
      have hinv1 : DoneInv g (sInsert v node) (node :: r) L := by
        refine ⟨?_, htopo, ?_⟩
        · intro x
          rw [mem_sInsert]
          constructor
          · rintro (rfl | hx)
            · exact Or.inr (by simp)
            · rcases (hpart x).mp hx with h | h
              · exact Or.inl h
              · exact Or.inr (by simp [h])
          · rintro (hx | hx)
            · exact Or.inr ((hpart x).mpr (Or.inl hx))
            · rcases List.mem_cons.mp hx with rfl | hx
              · exact Or.inl rfl
              · exact Or.inr ((hpart x).mpr (Or.inr hx))
        · intro x hx
          intro hxr
          rcases List.mem_cons.mp hxr with rfl | hxr
          · exact hnv (hLsubv x hx)
          · exact hdisj x hx hxr
      rcases fold_main (gNeighbors g node) (sInsert v node) L (fun nb h => h)
        hvv1 hnodev1 hcnt1 hinv1 (fun x hx => hx) with ⟨hsome, hnone⟩
      have hdfs : dfsCycle g (Nat.succ fuel) node v r =
          match (gNeighbors g node).foldl (dfsFoldStep (dfsCycle g fuel) node)
              (none, sInsert v node, sInsert r node) with
          | (some cyc, v3, r3) => (some cyc, v3, r3)
          | (none, v3, r3) => (none, v3, sRemove r3 node) := rfl
      rcases hfold : (gNeighbors g node).foldl (dfsFoldStep (dfsCycle g fuel) node)
          (none, sInsert v node, sInsert r node) with ⟨o, v3, r3⟩
      rw [hr1] at hfold
      cases o with
      | some cyc0 =>
          have hd2 : dfsCycle g (Nat.succ fuel) node v r = (some cyc0, v3, r3) := by
            rw [hdfs, hr1, hfold]
          constructor
          · intro cyc v' r' hd
            rw [hd2] at hd
            injection hd with h1 h2
            injection h1 with h1
            subst h1
            exact hsome cyc0 v3 r3 hfold
          · intro v' r' hd
            rw [hd2] at hd
            injection hd with h1 h2
            cases h1
      | none =>
          rcases hnone v3 r3 hfold with ⟨hre, hmono, L3, hinv3, hL3, hnbs3⟩
          obtain ⟨hpart3, htopo3, hdisj3⟩ := hinv3
          have hd2 : dfsCycle g (Nat.succ fuel) node v r = (none, v3, sRemove r3 node) := by
            rw [hdfs, hr1, hfold]
          constructor
          · intro cyc v' r' hd
            rw [hd2] at hd
            injection hd with h1 h2
            cases h1
          · intro v' r' hd
            rw [hd2] at hd
            injection hd with h1 h2
            injection h2 with h2a h2b
            subst h2a
            subst h2b
            have hrr : sRemove r3 node = r := by rw [hre, sRemove_cons_self]
            have hnodeL3 : ¬ node ∈ L3 := by
              intro hc
              exact hdisj3 node hc (by simp)
            refine ⟨hrr, fun x hx => hmono x (hvv1 x hx), hmono node hnodev1,
              node :: L3, ⟨?_, ?_, ?_⟩, ?_⟩
            · intro x
              rw [hpart3 x]
              constructor
              · rintro (hx | hx)
                · exact Or.inl (by simp [hx])
                · rcases List.mem_cons.mp hx with rfl | hx
                  · exact Or.inl (by simp)
                  · rw [hrr]
                    exact Or.inr hx
              · rintro (hx | hx)
                · rcases List.mem_cons.mp hx with rfl | hx
                  · exact Or.inr (by simp)
                  · exact Or.inl hx
                · rw [hrr] at hx
                  exact Or.inr (by simp [hx])
            · exact RTopo.cons node L3 htopo3 (fun x hx => hnbs3 x hx) hnodeL3
            · intro x hx hxr
              rw [hrr] at hxr
              rcases List.mem_cons.mp hx with rfl | hx
              · exact hvr hxr
              · exact hdisj3 x hx (by simp [hxr])
            · intro x hx
              exact List.mem_cons_of_mem _ (hL3 x hx)

/-- The driver loop: soundness of a `some` result and, for `none`, a
reverse-topological list covering every scanned name. -/
theorem cyclesScan_main (g : List (String × List String)) (U : List String)
    (hU : GClosed g U) (fuel : Nat) :
    ∀ (names v L : List String),
      (∀ n ∈ names, n ∈ U) → unvisitedCount U v < fuel →
      DoneInv g v [] L →
      (∀ cyc, cyclesScan g fuel names v [] = some cyc →
        ∃ a b, cyc = [a, b] ∧ gEdge g b a ∧ Relation.ReflTransGen (gEdge g) a b) ∧
      (cyclesScan g fuel names v [] = none →
        ∃ L', RTopo g L' ∧ (∀ n ∈ names, n ∈ L') ∧ (∀ x ∈ L, x ∈ L')) := by
  intro names
  induction names with
  | nil =>
      intro v L _ _ hinv
      obtain ⟨_, htopo, _⟩ := hinv
      constructor
      · intro cyc h
        cases h
      · intro _
        exact ⟨L, htopo, fun n hn => ((List.not_mem_nil n) hn).elim, fun x hx => hx⟩
  | cons n ns ihn =>
      intro v L hnames hcount hinv
      have hnU : n ∈ U := hnames n (by simp)
      have hns : ∀ x ∈ ns, x ∈ U := fun x hx => hnames x (by simp [hx])
      by_cases hnv : n ∈ v
      · have hscan : cyclesScan g fuel (n :: ns) v [] = cyclesScan g fuel ns v [] := by
          simp [cyclesScan, hnv]
        rcases ihn v L hns hcount hinv with ⟨hsome, hnone⟩
        constructor
        · intro cyc h
          rw [hscan] at h
          exact hsome cyc h
        · intro h
          rw [hscan] at h
          rcases hnone h with ⟨L', htopo', hcov, hmono⟩
          refine ⟨L', htopo', ?_, hmono⟩
          intro x hx
          rcases List.mem_cons.mp hx with rfl | hx
          · rcases (hinv.1 x).mp hnv with hL | hL
            · exact hmono x hL
            · cases hL
          · exact hcov x hx
      · rcases dfs_main g U hU fuel n v [] L hnU hnv hcount hinv
          (by intro x hx; cases hx) with ⟨hdsome, hdnone⟩
        rcases hsd : dfsCycle g fuel n v [] with ⟨o, v', r'⟩
        cases o with
        | some cyc0 =>
            have hscan : cyclesScan g fuel (n :: ns) v [] = some cyc0 := by
              simp [cyclesScan, hnv, hsd]
            constructor
            · intro cyc h
              rw [hscan] at h
              injection h with h
              subst h
              exact hdsome cyc0 v' r' hsd
            · intro h
              rw [hscan] at h
              cases h
        | none =>
            rcases hdnone v' r' hsd with ⟨hr', hmonoV, hnv', L', hinv', hLL'⟩
            subst hr'
            have hscan : cyclesScan g fuel (n :: ns) v [] = cyclesScan g fuel ns v' [] := by
              simp [cyclesScan, hnv, hsd]
            have hcount' : unvisitedCount U v' < fuel :=
              lt_of_le_of_lt (unvisitedCount_mono U v v' hmonoV) hcount
            rcases ihn v' L' hns hcount' hinv' with ⟨hsome, hnone⟩
            constructor
            · intro cyc h
              rw [hscan] at h
              exact hsome cyc h
            · intro h
              rw [hscan] at h
              rcases hnone h with ⟨L'', htopo'', hcov, hmono''⟩
              refine ⟨L'', htopo'', ?_, fun x hx => hmono'' x (hLL' x hx)⟩
              intro x hx
              rcases List.mem_cons.mp hx with rfl | hx
              · rcases (hinv'.1 x).mp hnv' with hL | hL
                · exact hmono'' x hL
                · cases hL
              · exact hcov x hx

/-! ## Graph construction lemmas -/

/-- Every association present in `buildGraph ps` comes from a process. -/
theorem alLookup_buildGraph_aux (ps : List ProcessConfig)
    (g0 : List (String × List String)) (u : String) (nbs : List String)
    (h : alLookup (ps.foldl (fun g p => alInsert g p.name p.depends_on) g0) u
      = some nbs) :
    (∃ p ∈ ps, p.name = u ∧ nbs = p.depends_on) ∨ alLookup g0 u = some nbs := by
  induction ps generalizing g0 with
  | nil => exact Or.inr h
  | cons p ps ih =>
      rcases ih (alInsert g0 p.name p.depends_on) h with hfound | hbase
      · rcases hfound with ⟨q, hq, hqn, hqd⟩
        exact Or.inl ⟨q, by simp [hq], hqn, hqd⟩
      · by_cases hpu : p.name = u
        · subst hpu
          rw [alLookup_insert_self] at hbase
          injection hbase with hb
          exact Or.inl ⟨p, by simp, rfl, hb.symm⟩
        · rw [alLookup_insert_ne _ _ _ _ hpu] at hbase
          exact Or.inr hbase

theorem alLookup_buildGraph (ps : List ProcessConfig) (u : String) (nbs : List String)
    (h : alLookup (buildGraph ps) u = some nbs) :
    ∃ p ∈ ps, p.name = u ∧ nbs = p.depends_on := by
  rcases alLookup_buildGraph_aux ps [] u nbs h with hfound | hbase
  · exact hfound
  · cases hbase

/-- The node universe of a config: declared names plus every name
mentioned as a dependency. -/
def gUniverse (ps : List ProcessConfig) : List String :=
  allNames ps ++ (ps.map (·.depends_on)).flatten

theorem gUniverse_closed (ps : List ProcessConfig) :
    GClosed (buildGraph ps) (gUniverse ps) := by
  intro u nb _ hnb
  unfold gNeighbors at hnb
  cases hl : alLookup (buildGraph ps) u with
  | none => rw [hl] at hnb; cases hnb
  | some nbs =>
      rw [hl] at hnb
      rcases alLookup_buildGraph ps u nbs hl with ⟨p, hp, _, hd⟩
      unfold gUniverse
      refine List.mem_append_right _ ?_
      rw [List.mem_flatten]
      exact ⟨p.depends_on, List.mem_map_of_mem _ hp, hd ▸ hnb⟩

theorem gEdge_src_mem (ps : List ProcessConfig) (u vtx : String)
    (h : gEdge (buildGraph ps) u vtx) : u ∈ allNames ps := by
  unfold gEdge gNeighbors at h
  cases hl : alLookup (buildGraph ps) u with
  | none => rw [hl] at h; cases h
  | some nbs =>
      rcases alLookup_buildGraph ps u nbs hl with ⟨p, hp, hpn, _⟩
      exact hpn ▸ List.mem_map_of_mem _ hp

theorem names_mem_gUniverse (ps : List ProcessConfig) (n : String)
    (h : n ∈ allNames ps) : n ∈ gUniverse ps :=
  List.mem_append_left _ h

/-- `graphFuel` dominates the initial unvisited count. -/
theorem graphFuel_enough (ps : List ProcessConfig) :
    unvisitedCount (gUniverse ps) [] < graphFuel ps := by
  unfold unvisitedCount graphFuel
  have h1 : ((gUniverse ps).dedup.filter (fun x => ¬ x ∈ ([] : List String))).length
      ≤ (gUniverse ps).dedup.length := List.length_filter_le _ _
  have h2 : (gUniverse ps).dedup.length ≤ (gUniverse ps).length :=
    (List.dedup_sublist _).length_le
  have h3 : (gUniverse ps).length
      = ps.length + ((ps.map (·.depends_on)).flatten).length := by
    unfold gUniverse allNames
    rw [List.length_append, List.length_map]
  have h4 : ((ps.map (·.depends_on)).flatten).length
      = (ps.map (·.depends_on.length)).sum := by
    rw [List.length_flatten]
    congr 1
    rw [List.map_map]
    rfl
  omega

/-- The instantiated spec of the cycle scan of one config. -/
theorem cyclesScan_config (ps : List ProcessConfig) :
    (∀ cyc, cyclesScan (buildGraph ps) (graphFuel ps) (allNames ps) [] [] = some cyc →
      ∃ a b, cyc = [a, b] ∧ gEdge (buildGraph ps) b a ∧
        Relation.ReflTransGen (gEdge (buildGraph ps)) a b) ∧
    (cyclesScan (buildGraph ps) (graphFuel ps) (allNames ps) [] [] = none →
      ¬ HasCycle (buildGraph ps)) := by
  have hinv0 : DoneInv (buildGraph ps) [] [] [] := by
    refine ⟨?_, RTopo.nil, ?_⟩
    · intro x
      simp
    · intro x hx
      cases hx
  rcases cyclesScan_main (buildGraph ps) (gUniverse ps) (gUniverse_closed ps)
    (graphFuel ps) (allNames ps) [] [] (fun n hn => names_mem_gUniverse ps n hn)
    (graphFuel_enough ps) hinv0 with ⟨hsome, hnone⟩
  refine ⟨hsome, ?_⟩
  intro h
  rcases hnone h with ⟨L', htopo', hcov, _⟩
  exact rtopo_no_cycle (buildGraph ps) htopo'
    (fun u vtx he => hcov u (gEdge_src_mem ps u vtx he))

/-! ## Validation front matter -/

theorem findDuplicate_none_iff (ps : List ProcessConfig) :
    ∀ seen, findDuplicate ps seen = none ↔
      ((ps.map (·.name)).Nodup ∧ ∀ n ∈ ps.map (·.name), ¬ n ∈ seen) := by
  induction ps with
  | nil =>
      intro seen
      simp [findDuplicate]
  | cons p ps ih =>
      intro seen
      unfold findDuplicate
      by_cases hp : p.name ∈ seen
      · simp only [hp, if_true]
        constructor
        · intro h; cases h
        · rintro ⟨_, hns⟩
          exact absurd hp (hns p.name (by simp))
      · simp only [hp, if_false]
        rw [ih (p.name :: seen)]
        constructor
        · rintro ⟨hnd, hns⟩
          refine ⟨?_, ?_⟩
          · rw [List.map_cons, List.nodup_cons]
            refine ⟨?_, hnd⟩
            intro hmem
            exact absurd (hns p.name hmem) (by simp)
          · intro n hn
            rw [List.map_cons] at hn
            rcases List.mem_cons.mp hn with rfl | hn2
            · exact hp
            · intro hmem
              exact hns n hn2 (by simp [hmem])
        · rintro ⟨hnd, hns⟩
          rw [List.map_cons, List.nodup_cons] at hnd
          obtain ⟨hpn, hnd'⟩ := hnd
          refine ⟨hnd', ?_⟩
          intro n hn hmem
          rcases List.mem_cons.mp hmem with rfl | hmem2
          · exact hpn hn
          · exact hns n (by simp [hn]) hmem2

theorem fud_none_iff (pn : String) (deps names : List String) :
    firstUnknownDep pn deps names = none ↔ ∀ d ∈ deps, d ∈ names := by
  induction deps with
  | nil => simp [firstUnknownDep]
  | cons d ds ih =>
      unfold firstUnknownDep
      by_cases hd : d ∈ names
      · rw [if_pos hd, ih]
        constructor
        · intro h x hx
          rcases List.mem_cons.mp hx with rfl | hx2
          · exact hd
          · exact h x hx2
        · intro h x hx
          exact h x (by simp [hx])
      · rw [if_neg hd]
        constructor
        · intro h; cases h
        · intro h
          exact absurd (h d (by simp)) hd

theorem fud_some (pn : String) (deps names : List String) (e : SentinelError)
    (h : firstUnknownDep pn deps names = some e) :
    ∃ d, e = SentinelError.UnknownDependency pn d ∧ d ∈ deps ∧ ¬ d ∈ names := by
  induction deps with
  | nil => cases h
  | cons d ds ih =>
      unfold firstUnknownDep at h
      by_cases hd : d ∈ names
      · rw [if_pos hd] at h
        rcases ih h with ⟨d', he, hmem, hnm⟩
        exact ⟨d', he, by simp [hmem], hnm⟩
      · rw [if_neg hd] at h
        injection h with h
        exact ⟨d, h.symm, by simp, hd⟩

theorem validate_process_none (p : ProcessConfig) (names : List String)
    (hn : trimIsEmpty p.name = false) (hc : trimIsEmpty p.command = false)
    (hd : ∀ d ∈ p.depends_on, d ∈ names) : validate_process p names = none := by
  unfold validate_process
  simp only [hn, hc, Bool.false_eq_true, if_false]
  exact (fud_none_iff _ _ _).mpr hd

theorem validate_process_some_unknown (p : ProcessConfig) (names : List String)
    (hn : trimIsEmpty p.name = false) (hc : trimIsEmpty p.command = false)
    (e : SentinelError) (h : validate_process p names = some e) :
    ∃ d, e = SentinelError.UnknownDependency p.name d ∧
      d ∈ p.depends_on ∧ ¬ d ∈ names := by
  unfold validate_process at h
  simp only [hn, hc, Bool.false_eq_true, if_false] at h
  exact fud_some _ _ _ _ h

theorem validate_process_none_deps (p : ProcessConfig) (names : List String)
    (hn : trimIsEmpty p.name = false) (hc : trimIsEmpty p.command = false)
    (h : validate_process p names = none) : ∀ d ∈ p.depends_on, d ∈ names := by
  unfold validate_process at h
  simp only [hn, hc, Bool.false_eq_true, if_false] at h
  exact (fud_none_iff _ _ _).mp h

theorem validateProcesses_none (ps : List ProcessConfig) (names : List String)
    (h : ∀ p ∈ ps, validate_process p names = none) :
    validateProcesses ps names = none := by
  induction ps with
  | nil => rfl
  | cons p t ih =>
      unfold validateProcesses
      rw [h p (by simp)]
      exact ih (fun q hq => h q (by simp [hq]))

theorem validateProcesses_unknown (ps : List ProcessConfig) (names : List String)
    (hok : ∀ p ∈ ps, trimIsEmpty p.name = false ∧ trimIsEmpty p.command = false)
    (hbad : ∃ p ∈ ps, ∃ d ∈ p.depends_on, ¬ d ∈ names) :
    ∃ pn dn, validateProcesses ps names = some (SentinelError.UnknownDependency pn dn) ∧
      (∃ p ∈ ps, p.name = pn ∧ dn ∈ p.depends_on) ∧ ¬ dn ∈ names := by
  induction ps with
  | nil =>
      rcases hbad with ⟨p, hp, _⟩
      cases hp
  | cons p t ih =>
      rcases hok p (by simp) with ⟨hn, hc⟩
      cases hv : validate_process p names with
      | some e =>
          rcases validate_process_some_unknown p names hn hc e hv with ⟨d, he, hdm, hdn⟩
          subst he
          refine ⟨p.name, d, ?_, ⟨p, by simp, rfl, hdm⟩, hdn⟩
          unfold validateProcesses
          rw [hv]
      | none =>
          have hpclean : ∀ d ∈ p.depends_on, d ∈ names :=
            validate_process_none_deps p names hn hc hv
          have hbad' : ∃ q ∈ t, ∃ d ∈ q.depends_on, ¬ d ∈ names := by
            rcases hbad with ⟨q, hq, d, hd, hdn⟩
            rcases List.mem_cons.mp hq with rfl | hq2
            · exact absurd (hpclean d hd) hdn
            · exact ⟨q, hq2, d, hd, hdn⟩
          rcases ih (fun q hq => hok q (by simp [hq])) hbad' with ⟨pn, dn, hveq, hwit, hdn⟩
          refine ⟨pn, dn, ?_, ?_, hdn⟩
          · unfold validateProcesses
            rw [hv]
            exact hveq
          · rcases hwit with ⟨q, hq, hqn, hqd⟩
            exact ⟨q, by simp [hq], hqn, hqd⟩

/-! ## C8: the validation contract -/

/-- C8 (amended): with unique declared names, configuration validation
(i) succeeds when all names and commands are non-blank, every dependency
is declared, and the dependency graph is acyclic; (ii) fails with
`UnknownDependency` naming a dependent and its missing dependency when
some `depends_on` entry is undeclared (and the earlier name/command
checks pass); and (iii) when all dependencies are declared and the graph
has a cycle, fails with `DependencyCycle` carrying a **two-node**
back-edge witness `[a, b]` — an edge `b → a` closed by a path from `a`
back to `b` — rather than the full ordered cycle. -/
theorem c8_validate_spec (c : Config) :
    (((c.processes.map (·.name)).Nodup ∧
      (∀ p ∈ c.processes, trimIsEmpty p.name = false ∧ trimIsEmpty p.command = false ∧
        ∀ d ∈ p.depends_on, d ∈ allNames c.processes) ∧
      ¬ HasCycle (buildGraph c.processes)) → validate c = Except.ok ()) ∧
    (((c.processes.map (·.name)).Nodup ∧
      (∀ p ∈ c.processes, trimIsEmpty p.name = false ∧ trimIsEmpty p.command = false) ∧
      (∃ p ∈ c.processes, ∃ d ∈ p.depends_on, ¬ d ∈ allNames c.processes)) →
      ∃ pn dn, validate c = Except.error (SentinelError.UnknownDependency pn dn) ∧
        (∃ p ∈ c.processes, p.name = pn ∧ dn ∈ p.depends_on) ∧
        ¬ dn ∈ allNames c.processes) ∧
    (((c.processes.map (·.name)).Nodup ∧
      (∀ p ∈ c.processes, trimIsEmpty p.name = false ∧ trimIsEmpty p.command = false ∧
        ∀ d ∈ p.depends_on, d ∈ allNames c.processes) ∧
      HasCycle (buildGraph c.processes)) →
      ∃ a b, validate c = Except.error (SentinelError.DependencyCycle [a, b]) ∧
        gEdge (buildGraph c.processes) b a ∧
        Relation.ReflTransGen (gEdge (buildGraph c.processes)) a b ∧
        Relation.TransGen (gEdge (buildGraph c.processes)) a a) := by
  refine ⟨?_, ?_, ?_⟩
  · rintro ⟨hnd, hpp, hnc⟩
    have hdup : findDuplicate c.processes [] = none :=
      (findDuplicate_none_iff c.processes []).mpr ⟨hnd, fun n _ h => absurd h (List.not_mem_nil n)⟩
    have hvp : validateProcesses c.processes (allNames c.processes) = none :=
      validateProcesses_none _ _ (fun p hp =>
        validate_process_none p _ (hpp p hp).1 (hpp p hp).2.1 (hpp p hp).2.2)
    have hcd : check_dependency_cycles c.processes = none := by
      unfold check_dependency_cycles
      cases hscan : cyclesScan (buildGraph c.processes) (graphFuel c.processes)
          (allNames c.processes) [] [] with
      | none => rfl
      | some cyc =>
          exfalso
          rcases (cyclesScan_config c.processes).1 cyc hscan with ⟨a, b, _, hedge, hpath⟩
          exact hnc ⟨a, Relation.TransGen.tail' hpath hedge⟩
    unfold validate
    rw [hdup, hvp, hcd]
  · rintro ⟨hnd, hok, hbad⟩
    have hdup : findDuplicate c.processes [] = none :=
      (findDuplicate_none_iff c.processes []).mpr ⟨hnd, fun n _ h => absurd h (List.not_mem_nil n)⟩
    rcases validateProcesses_unknown c.processes (allNames c.processes) hok hbad
      with ⟨pn, dn, hveq, hwit, hdn⟩
    refine ⟨pn, dn, ?_, hwit, hdn⟩
    unfold validate
    rw [hdup, hveq]
  · rintro ⟨hnd, hpp, hcyc⟩
    have hdup : findDuplicate c.processes [] = none :=
      (findDuplicate_none_iff c.processes []).mpr ⟨hnd, fun n _ h => absurd h (List.not_mem_nil n)⟩
    have hvp : validateProcesses c.processes (allNames c.processes) = none :=
      validateProcesses_none _ _ (fun p hp =>
        validate_process_none p _ (hpp p hp).1 (hpp p hp).2.1 (hpp p hp).2.2)
    cases hscan : cyclesScan (buildGraph c.processes) (graphFuel c.processes)
        (allNames c.processes) [] [] with
    | none => exact absurd hcyc ((cyclesScan_config c.processes).2 hscan)
    | some cyc =>
        rcases (cyclesScan_config c.processes).1 cyc hscan with ⟨a, b, hc2, hedge, hpath⟩
        subst hc2
        refine ⟨a, b, ?_, hedge, hpath, Relation.TransGen.tail' hpath hedge⟩
        unfold validate check_dependency_cycles
        rw [hdup, hvp, hscan]

/-- The acyclic two-process config has exactly one edge, `a → b`. -/
theorem cfg4_edge_char (u v : String) (h : gEdge (buildGraph cfg4.processes) u v) :
    u = "a" ∧ v = "b" := by
  unfold gEdge gNeighbors at h
  by_cases h1 : u = "a"
  · subst h1
    have he : alLookup (buildGraph cfg4.processes) "a" = some ["b"] := rfl
    rw [he] at h
    simp only [Option.getD_some, List.mem_singleton] at h
    exact ⟨rfl, h⟩
  · by_cases h2 : u = "b"
    · subst h2
      have he : alLookup (buildGraph cfg4.processes) "b" = some [] := rfl
      rw [he] at h
      simp at h
    · have h1' : ¬ (("a" : String) = u) := fun hc => h1 hc.symm
      have h2' : ¬ (("b" : String) = u) := fun hc => h2 hc.symm
      have he : alLookup (buildGraph cfg4.processes) u = none := by
        show alLookup [("a", ["b"]), ("b", ([] : List String))] u = none
        simp [alLookup, h1', h2']
      rw [he] at h
      simp at h

theorem cfg4_acyclic : ¬ HasCycle (buildGraph cfg4.processes) := by
  rintro ⟨n, hn⟩
  rcases Relation.TransGen.head'_iff.mp hn with ⟨c, hnc, hcb⟩
  rcases cfg4_edge_char n c hnc with ⟨rfl, rfl⟩
  rcases Relation.ReflTransGen.cases_head hcb with heq | ⟨d, hbd, _⟩
  · exact absurd heq (by decide)
  · exact absurd (cfg4_edge_char _ d hbd).1 (by decide)

theorem cfg3_cycle : HasCycle (buildGraph cfg3.processes) := by
  have e1 : gEdge (buildGraph cfg3.processes) "a" "b" := by unfold gEdge; decide
  have e2 : gEdge (buildGraph cfg3.processes) "b" "c" := by unfold gEdge; decide
  have e3 : gEdge (buildGraph cfg3.processes) "c" "a" := by unfold gEdge; decide
  exact ⟨"a", Relation.TransGen.head e1
    (Relation.TransGen.head e2 (Relation.TransGen.single e3))⟩

/-- C8 (counterexample): the three-node cycle a → b → c → a is detected,
but the `DependencyCycle` payload is the two-node back-edge witness
`["a", "c"]` — not the full ordered cycle, which contains `b`. -/
theorem c8_cycle_payload_counterexample :
    validate cfg3 = Except.error (SentinelError.DependencyCycle ["a", "c"]) ∧
    ¬ (("b" : String) ∈ (["a", "c"] : List String)) ∧
    gEdge (buildGraph cfg3.processes) "a" "b" ∧
    gEdge (buildGraph cfg3.processes) "b" "c" ∧
    gEdge (buildGraph cfg3.processes) "c" "a" := by
  refine ⟨rfl, by decide, ?_, ?_, ?_⟩ <;> (unfold gEdge; decide)

/-- Witness for the amended C8 theorem, covering all three branches on
concrete configs: acyclic success, unknown dependency, and a three-node
cycle reported by a two-node witness. -/
theorem c8_validate_spec_witness :
    validate cfg4 = Except.ok () ∧
    (∃ pn dn, validate cfgU = Except.error (SentinelError.UnknownDependency pn dn) ∧
      (∃ p ∈ cfgU.processes, p.name = pn ∧ dn ∈ p.depends_on) ∧
      ¬ dn ∈ allNames cfgU.processes) ∧
    (∃ a b, validate cfg3 = Except.error (SentinelError.DependencyCycle [a, b]) ∧
      gEdge (buildGraph cfg3.processes) b a ∧
      Relation.ReflTransGen (gEdge (buildGraph cfg3.processes)) a b ∧
      Relation.TransGen (gEdge (buildGraph cfg3.processes)) a a) :=
  ⟨(c8_validate_spec cfg4).1 ⟨by decide, by decide, cfg4_acyclic⟩,
   (c8_validate_spec cfgU).2.1 ⟨by decide, by decide, by decide⟩,
   (c8_validate_spec cfg3).2.2 ⟨by decide, by decide, cfg3_cycle⟩⟩

/-! ## C4: the start order -/

/-- C4 (counterexample): `cfg4` validates (it is acyclic with all
dependencies declared), `a` depends on `b`, yet the batch start order is
the declaration order `["a", "b"]`, in which `b` does **not** precede
its dependent `a`: there is no dependency orderer. -/
theorem c4_no_reordering_counterexample :
    validate cfg4 = Except.ok () ∧
    pA4.name = "a" ∧ (("b" : String) ∈ pA4.depends_on) ∧
    (cliBatchStart cfg4 (fun _ => SpawnOutcome.ok (some 1)) 0).2 = ["a", "b"] ∧
    ¬ precedesIn (cliBatchStart cfg4 (fun _ => SpawnOutcome.ok (some 1)) 0).2 "b" "a" := by
  refine ⟨rfl, rfl, by decide, rfl, ?_⟩
  unfold precedesIn
  decide

/-- C4 (amended): for every config accepted by validation, the CLI batch
start attempts the processes exactly in declaration order (each declared
name once, since validation enforces uniqueness); dependency edges are
checked for existence and acyclicity but do not influence the order. -/
theorem c4_declaration_order_amended (c : Config) (sp : String → SpawnOutcome)
    (t : Nat) (hv : validate c = Except.ok ()) :
    (cliBatchStart c sp t).2 = c.processes.map (·.name) ∧
    (c.processes.map (·.name)).Nodup := by
  constructor
  · have horder : ∀ (ps : List ProcessConfig) (acc : ProcessManager × List String),
        (ps.foldl (cliStartFoldStep sp t) acc).2 = acc.2 ++ ps.map (·.name) := by
      intro ps
      induction ps with
      | nil => intro acc; simp
      | cons p t2 ih =>
          intro acc
          rw [List.foldl_cons, ih]
          simp [cliStartFoldStep]
    have := horder c.processes (ProcessManager.new, [])
    simpa [cliBatchStart] using this
  · unfold validate at hv
    cases hdup : findDuplicate c.processes [] with
    | some n => rw [hdup] at hv; cases hv
    | none => exact ((findDuplicate_none_iff c.processes []).mp hdup).1

/-- Witness for the amended C4 theorem at the concrete valid config. -/
theorem c4_declaration_order_amended_witness :
    (cliBatchStart cfg4 (fun _ => SpawnOutcome.ok (some 1)) 0).2
      = cfg4.processes.map (·.name) ∧
    (cfg4.processes.map (·.name)).Nodup :=
  c4_declaration_order_amended cfg4 (fun _ => SpawnOutcome.ok (some 1)) 0 rfl

/-! ## C9: PTY id uniqueness -/

theorem alInsert_keys_subset {α : Type} (l : List (String × α)) (k : String) (v : α)
    (x : String) (h : x ∈ (alInsert l k v).map (·.1)) :
    x = k ∨ x ∈ l.map (·.1) := by
  rcases List.mem_map.mp h with ⟨p, hp, hpx⟩
  rcases mem_alInsert l k v p hp with h2 | h2
  · exact Or.inr (hpx ▸ List.mem_map_of_mem _ h2)
  · subst h2
    exact Or.inl hpx.symm

theorem alInsert_keys_nodup {α : Type} (l : List (String × α)) (k : String) (v : α)
    (h : (l.map (·.1)).Nodup) : ((alInsert l k v).map (·.1)).Nodup := by
  induction l with
  | nil => simp [alInsert]
  | cons p t ih =>
      rw [List.map_cons, List.nodup_cons] at h
      obtain ⟨hpk, ht⟩ := h
      by_cases hp : p.1 = k
      · simp only [alInsert, if_pos hp, List.map_cons, List.nodup_cons]
        exact ⟨hp ▸ hpk, ht⟩
      · simp only [alInsert, if_neg hp, List.map_cons, List.nodup_cons]
        refine ⟨?_, ih ht⟩
        intro hmem
        rcases alInsert_keys_subset t k v p.1 hmem with h2 | h2
        · exact hp h2
        · exact hpk h2

/-- C9 (counterexample): `spawn_process` with an id that is currently
running is **not** refused — it succeeds and silently replaces the
existing handle (old pid 11 vanishes, only the new pid 12 remains). -/
theorem c9_spawn_replaces_counterexample :
    ptyM1.is_running "x" = true ∧
    (ptyM1.spawn_process "x" "cmd2" [] none none (PtySpawnOutcome.ok 12)).1
      = Except.ok 12 ∧
    ((ptyM1.spawn_process "x" "cmd2" [] none none (PtySpawnOutcome.ok 12)).2.processes.map
      (·.2.pid)) = [12] :=
  ⟨rfl, rfl, rfl⟩

/-- C9 (amended): `spawn_process` never refuses an id: whenever the OS
spawn succeeds it returns the new pid, installs the new handle for the
id (replacing any existing one, without killing its child), leaves other
ids untouched, and preserves key uniqueness — so at most one handle per
`process_id` exists in the map at any time; in particular re-spawn of an
id whose process has exited (or was killed) succeeds the same way. -/
theorem c9_spawn_uniqueness_amended (m : PtyProcessManager) (id cmd : String)
    (args : List String) (cwd : Option String)
    (env : Option (List (String × String))) (pid : Nat) :
    ((m.spawn_process id cmd args cwd env (PtySpawnOutcome.ok pid)).1
      = Except.ok pid) ∧
    (alLookup (m.spawn_process id cmd args cwd env (PtySpawnOutcome.ok pid)).2.processes id
      = some { process_id := id, pid := pid,
               config := { process_id := id, command := cmd, args := args,
                           cwd := cwd, env := env } }) ∧
    ((m.processes.map (·.1)).Nodup →
      (((m.spawn_process id cmd args cwd env
        (PtySpawnOutcome.ok pid)).2.processes.map (·.1)).Nodup)) ∧
    (∀ id2, id ≠ id2 →
      alLookup (m.spawn_process id cmd args cwd env
        (PtySpawnOutcome.ok pid)).2.processes id2 = alLookup m.processes id2) := by
  refine ⟨rfl, ?_, ?_, ?_⟩
  · exact alLookup_insert_self _ _ _
  · intro h
    exact alInsert_keys_nodup m.processes id _ h
  · intro id2 hne
    exact alLookup_insert_ne _ _ _ _ hne

/-- Witness for the amended C9 theorem: respawning the live id `x`
(pid 11) with pid 12 succeeds, keeps one handle for `x`, and keeps the
key list duplicate-free. -/
theorem c9_spawn_uniqueness_amended_witness :
    ((ptyM1.spawn_process "x" "cmd2" [] none none (PtySpawnOutcome.ok 12)).1
      = Except.ok 12) ∧
    (((ptyM1.spawn_process "x" "cmd2" [] none none
        (PtySpawnOutcome.ok 12)).2.processes.map (·.1)).Nodup) :=
  ⟨(c9_spawn_uniqueness_amended ptyM1 "x" "cmd2" [] none none 12).1,
   (c9_spawn_uniqueness_amended ptyM1 "x" "cmd2" [] none none 12).2.2.1 (by decide)⟩

end Sentinel
